import Mathlib

/-!
# Verification of the BRI e-statement parsing core

Shallow embedding of the parsing / counterparty-attribution core of
`almira-bw/estatement-readers` (files `src/app.py` and
`src/bri_streamlit_app.py`), together with proofs settling the frozen
claims about it.

Modelling conventions:
* Python strings are `String`; per-character work is done on `String.data`
  (a `List Char`), and all helpers are hand-rolled so that they reduce
  well under the kernel.  The inputs handled by this program are ASCII,
  so Python's `str.upper`, `str.isalpha`, `\d`, `\s`, `\w` are modelled by
  the corresponding ASCII predicates.
* Python floats are modelled as `ℚ`.  Every numeric string that the
  program parses successfully denotes an exact decimal fraction, so this
  is a faithful value model for this code (no rounding behaviour of the
  program is claim-relevant).
* A Python function that can only raise `NameError` (because it refers to
  an unbound global) is modelled as returning `Except PyError _`.
  Functions whose `try/except` handlers make them total are modelled as
  total functions, with the `except`-default built in exactly where the
  source has it.
* `re`-based operations are hand-rolled, one helper per regular
  expression, each documented with the regex it implements.
-/

/-- Errors a modelled Python function may raise.  Only `NameError`
(lookup of an unbound global name) occurs in this code base. -/
inductive PyError where
  | nameError
deriving DecidableEq, Repr

/-! ## Python string primitives -/

/-- Python whitespace for `str.strip`, `str.split()` and the regex `\s`
class: space, tab, newline, carriage return, vertical tab, form feed. -/
def pyIsSpace (c : Char) : Bool :=
  c == ' ' || c == '\t' || c == '\n' || c == '\x0d' || c == '\x0b' || c == '\x0c'

/-- Word characters, the regex `\w` class (ASCII): letters, digits, `_`. -/
def pyIsWord (c : Char) : Bool :=
  c.isAlpha || c.isDigit || c == '_'

/-- Drop leading and trailing Python whitespace from a character list. -/
def stripChars (l : List Char) : List Char :=
  ((l.dropWhile pyIsSpace).reverse.dropWhile pyIsSpace).reverse

/-- Python `str.strip()`. -/
def pyStrip (s : String) : String := ⟨stripChars s.data⟩

/-- Helper for `pySplit`: split a character list on whitespace runs,
accumulating the current (reversed) word. -/
def splitWsAux : List Char → List Char → List (List Char)
  | [], [] => []
  | [], w => [w.reverse]
  | c :: t, w =>
    if pyIsSpace c then
      if w.isEmpty then splitWsAux t [] else w.reverse :: splitWsAux t []
    else splitWsAux t (c :: w)

/-- Python `str.split()` with no argument: split on whitespace runs,
discarding empty pieces. -/
def pySplit (s : String) : List String :=
  (splitWsAux s.data []).map (fun l => ⟨l⟩)

/-- Helper for `splitOnChar`: split on a separator character, keeping
empty pieces (Python `str.split(sep)` semantics for a 1-char `sep`). -/
def splitCharAux (sep : Char) : List Char → List Char → List String
  | cur, [] => [⟨cur.reverse⟩]
  | cur, c :: t =>
    if c == sep then ⟨cur.reverse⟩ :: splitCharAux sep [] t
    else splitCharAux sep (c :: cur) t

/-- Python `str.split(sep)` for a single-character separator. -/
def splitOnChar (sep : Char) (s : String) : List String :=
  splitCharAux sep [] s.data

/-- Python `text.split('\n')`. -/
def pyLines (s : String) : List String := splitOnChar '\n' s

/-- Case-sensitive list prefix test. -/
def isPrefixList : List Char → List Char → Bool
  | [], _ => true
  | _ :: _, [] => false
  | a :: s, b :: t => a == b && isPrefixList s t

/-- Case-insensitive (ASCII) list prefix test. -/
def isPrefixListCI : List Char → List Char → Bool
  | [], _ => true
  | _ :: _, [] => false
  | a :: s, b :: t => a.toUpper == b.toUpper && isPrefixListCI s t

/-- Substring test on character lists (Python `needle in hay`). -/
def containsSubAux (nd : List Char) : List Char → Bool
  | [] => isPrefixList nd []
  | c :: t => isPrefixList nd (c :: t) || containsSubAux nd t

/-- Python substring containment `needle in hay`. -/
def containsSub (needle hay : String) : Bool :=
  containsSubAux needle.data hay.data

/-- Python `str.upper()` (ASCII inputs). -/
def pyUpper (s : String) : String := ⟨s.data.map Char.toUpper⟩

/-- Python `str.startswith(pre)`. -/
def pyStartsWith (s pre : String) : Bool := isPrefixList pre.data s.data

/-- Python `word.isalpha()`: non-empty and all alphabetic. -/
def pyIsAlphaStr (s : String) : Bool :=
  !s.data.isEmpty && s.data.all Char.isAlpha

/-- Helper for `splitOnSub`: Python `str.split(sep)` for a multi-character
separator, scanning left to right for non-overlapping occurrences. -/
def splitSubAux (sep : List Char) : List Char → List Char → Nat → List String
  | cur, [], _ => [⟨cur.reverse⟩]
  | cur, c :: t, fuel =>
    match fuel with
    | 0 => [⟨(cur.reverse ++ c :: t)⟩]
    | fuel + 1 =>
      if isPrefixList sep (c :: t) then
        ⟨cur.reverse⟩ :: splitSubAux sep [] ((c :: t).drop sep.length) fuel
      else
        splitSubAux sep (c :: cur) t fuel

/-- Python `str.split(sep)` for a non-empty multi-character separator. -/
def splitOnSub (sep : String) (s : String) : List String :=
  splitSubAux sep.data [] s.data s.data.length

/-- Index of the last occurrence of `c` in `l`, if any. -/
def rlastIdx (c : Char) : List Char → Option Nat
  | [] => none
  | a :: t =>
    match rlastIdx c t with
    | some i => some (i + 1)
    | none => if a == c then some 0 else none

/-- Python `str.rfind(c)`: index of the last occurrence, `-1` if absent. -/
def pyRfind (c : Char) (s : String) : Int :=
  match rlastIdx c s.data with
  | none => -1
  | some i => (i : Int)

/-- Number of occurrences of a character (Python `str.count(c)`). -/
def countChar (c : Char) (s : String) : Nat :=
  (s.data.filter (fun a => a == c)).length

/-- Character containment (Python `c in s`). -/
def containsChar (c : Char) (s : String) : Bool :=
  s.data.any (fun a => a == c)

/-! ## Python `float()` and the two amount normalizers -/

/-- Value of a digit string read in base 10. -/
def digitsVal (l : List Char) : Nat :=
  l.foldl (fun a c => 10 * a + (c.toNat - 48)) 0

/-- Core of `float(s)` on an (optional-sign-stripped) character list:
accepts `digits`, `digits.digits`, `digits.` and `.digits`; anything
else fails.  The numeric strings this program feeds to `float` contain
only digits and periods (after its own preprocessing), so exponent
forms, `inf`/`nan` and internal whitespace never occur and are not
modelled. -/
def pyFloatCore (l : List Char) : Option ℚ :=
  let intd := l.takeWhile Char.isDigit
  let rest := l.drop intd.length
  match rest with
  | [] => if intd.isEmpty then none else some ((digitsVal intd : ℚ))
  | '.' :: rest2 =>
    let frac := rest2.takeWhile Char.isDigit
    if !(rest2.drop frac.length).isEmpty then none
    else if intd.isEmpty && frac.isEmpty then none
    else some ((digitsVal intd : ℚ) + (digitsVal frac : ℚ) / (10 ^ frac.length : ℚ))
  | _ => none

/-- Python `float(s)`: ignores surrounding whitespace, allows an optional
sign, then `pyFloatCore`; `none` models a raised `ValueError`. -/
def pyFloatOpt (s : String) : Option ℚ :=
  match stripChars s.data with
  | '-' :: rest => (pyFloatCore rest).map (fun q => -q)
  | '+' :: rest => pyFloatCore rest
  | l => pyFloatCore l

/-- Python `float(s)` inside a `try: ... except: return 0.0` context:
a failed conversion yields `0.0`. -/
def pyFloatD (s : String) : ℚ := (pyFloatOpt s).getD 0

/-- `clean_amount` (src/bri_streamlit_app.py lines 36-51, identical in
src/app.py lines 26-39): empty/whitespace input yields `0.0`; otherwise
commas and whitespace are removed, a single period followed by exactly
two digits is kept as the decimal point, any other periods are dropped
as thousands separators; any `float` failure yields `0.0` via the
function's blanket `except`. -/
def clean_amount (amount_str : String) : ℚ :=
  if amount_str == "" || pyStrip amount_str == "" then 0
  else
    let cleaned : List Char := amount_str.data.filter (fun c => !(c == ',' || pyIsSpace c))
    if containsChar '.' ⟨cleaned⟩ then
      match splitOnChar '.' ⟨cleaned⟩ with
      | [_, b] =>
        if b.length == 2 then pyFloatD ⟨cleaned⟩
        else pyFloatD ⟨cleaned.filter (fun c => !(c == '.'))⟩
      | _ => pyFloatD ⟨cleaned.filter (fun c => !(c == '.'))⟩
    else pyFloatD ⟨cleaned⟩

/-- `parse_amount`, the nested helper defined inside
`extract_personal_info` (src/bri_streamlit_app.py lines 387-405; the
src/app.py copy at lines 315-329 is semantically identical on its
reachable inputs): if a comma sits to the right of the last period,
periods are dropped and the comma becomes the decimal point (European
style); else commas are dropped; else with several periods only the part
after the last one is kept as decimals; any `float` failure yields
`0.0`. -/
def parse_amount (amount_str : String) : ℚ :=
  let s := pyStrip amount_str
  if containsChar ',' s && pyRfind ',' s > pyRfind '.' s then
    pyFloatD ⟨(s.data.filter (fun c => !(c == '.'))).map (fun c => if c == ',' then '.' else c)⟩
  else if containsChar ',' s then
    pyFloatD ⟨s.data.filter (fun c => !(c == ','))⟩
  else if 1 < countChar '.' s then
    match rlastIdx '.' s.data with
    | some i =>
      let integer_part := (s.data.take i).filter (fun c => !(c == '.'))
      let decimal_part := s.data.drop (i + 1)
      pyFloatD ⟨integer_part ++ '.' :: decimal_part⟩
    | none => pyFloatD s
  else pyFloatD s

/-! ## Line classification and the two transaction parsers -/

/-- Consume exactly two digits (regex `\d{2}`). -/
def chompDigit2 : List Char → Option (List Char)
  | a :: b :: t => if a.isDigit && b.isDigit then some t else none
  | _ => none

/-- Consume one expected literal character. -/
def chompChar (c : Char) : List Char → Option (List Char)
  | a :: t => if a == c then some t else none
  | [] => none

/-- Consume a non-empty run of whitespace (regex `\s+`). -/
def chompWs1 (l : List Char) : Option (List Char) :=
  let w := l.takeWhile pyIsSpace
  if w.isEmpty then none else some (l.drop w.length)

/-- `re.match(r'^\d{2}/\d{2}/\d{2}\s+\d{2}:\d{2}:\d{2}', line)`: the
anchor test both transaction parsers use to recognise a line that starts
a record (a `DD/MM/YY` date then a `HH:MM:SS` time). -/
def anchorMatch (s : String) : Bool :=
  (do
    let l ← chompDigit2 s.data
    let l ← chompChar '/' l
    let l ← chompDigit2 l
    let l ← chompChar '/' l
    let l ← chompDigit2 l
    let l ← chompWs1 l
    let l ← chompDigit2 l
    let l ← chompChar ':' l
    let l ← chompDigit2 l
    let l ← chompChar ':' l
    let l ← chompDigit2 l
    pure l).isSome

/-- `re.match(r'^[\d,\.]+$', part)`: a non-empty token of digits, commas
and periods. -/
def numericShaped (s : String) : Bool :=
  !s.data.isEmpty && s.data.all (fun c => c.isDigit || c == ',' || c == '.')

/-- `re.match(r'^\d{7}$', part)`: exactly seven digits. -/
def sevenDigits (s : String) : Bool :=
  s.data.length == 7 && s.data.all Char.isDigit

/-- Numeric-shaped token test of `extract_transactions`
(src/bri_streamlit_app.py line 453, src/app.py line 354). -/
def estNumTok (s : String) : Bool := numericShaped s || sevenDigits s

/-- Numeric-shaped token test of `extract_cms_transactions`
(src/bri_streamlit_app.py line 158, src/app.py line 130), which also
accepts three literal reference codes. -/
def cmsNumTok (s : String) : Bool :=
  numericShaped s || sevenDigits s || s == "CMSPYRL" || s == "BRI0372" || s == "BRIMDBT"

/-- The backwards token scan of both parsers: walk the token list from
the end, collect tokens satisfying `pred` (in their original order) and
stop as soon as four are collected. -/
def collectLastFour (pred : String → Bool) (parts : List String) : List String :=
  ((parts.reverse.filter pred).take 4).reverse

/-- Python `' '.join(l)`. -/
def joinSpace : List String → String
  | [] => ""
  | [x] => x
  | x :: t => x ++ " " ++ joinSpace t

/-- A transaction of the 2025 e-statement format, as produced by
`extract_transactions` (dict keys `tanggal`, `waktu`, `deskripsi`,
`teller_id`, `debit`, `kredit`, `saldo`). -/
structure EstTrx where
  tanggal : String
  waktu : String
  deskripsi : String
  teller_id : String
  debit : ℚ
  kredit : ℚ
  saldo : ℚ
deriving DecidableEq, Repr

/-- A transaction of the CMS (2024) format, as produced by
`extract_cms_transactions` (dict keys `Date`, `Remark`, `Debit`,
`Credit`, `Saldo`). -/
structure CmsTrx where
  Date : String
  Remark : String
  Debit : ℚ
  Credit : ℚ
  Saldo : ℚ
deriving DecidableEq, Repr

/-- The CMS parser's guarded amount parse:
`clean_amount(s) if s != '0.00' else 0.0`
(src/bri_streamlit_app.py lines 171-172, src/app.py lines 139-140). -/
def cmsAmt (s : String) : ℚ := if s == "0.00" then 0 else clean_amount s

/-- One loop iteration of `extract_transactions`
(src/bri_streamlit_app.py lines 431-483, src/app.py lines 344-376):
strip the line, skip it if empty, require the date-time anchor and at
least 7 tokens, collect the last four numeric-shaped tokens and emit a
record only when exactly four were found; the four tokens become, in
order, teller id, debit, credit, balance, and the description is the
token range between index 2 and the last four tokens. -/
def processLineEst (rawLine : String) : Option EstTrx :=
  let line := pyStrip rawLine
  if line == "" then none
  else if anchorMatch line then
    let parts := pySplit line
    if 7 ≤ parts.length then
      match collectLastFour estNumTok parts with
      | [a, b, c, d] =>
        some { tanggal := parts.getD 0 ""
               waktu := parts.getD 1 ""
               deskripsi := pyStrip (joinSpace ((parts.drop 2).take (parts.length - 6)))
               teller_id := a
               debit := clean_amount b
               kredit := clean_amount c
               saldo := clean_amount d }
      | _ => none
    else none
  else none

/-- The Python accumulation loop `for x in l: ... results.append(r)`:
fold over the list, appending the result of each successful step. -/
def pyAppendLoop {α β : Type} (f : α → Option β) (l : List α) : List β :=
  l.foldl
    (fun acc x => match f x with
      | some t => acc ++ [t]
      | none => acc) []

/-- `extract_transactions` (src/bri_streamlit_app.py lines 421-485,
src/app.py lines 341-377): apply `processLineEst` to every line of the
text, appending each emitted record. -/
def extract_transactions (text : String) : List EstTrx :=
  pyAppendLoop processLineEst (pyLines text)

/-- One loop iteration of `extract_cms_transactions`
(src/bri_streamlit_app.py lines 142-199, src/app.py lines 119-151):
same shape as `processLineEst` but with a 6-token minimum, the extra
reference-code tokens, the `'0.00'` guard on the first two collected
tokens, and the four collected tokens read, in order, as debit, credit,
balance, teller id (the teller id is not stored). -/
def processLineCms (rawLine : String) : Option CmsTrx :=
  let line := pyStrip rawLine
  if line == "" then none
  else if anchorMatch line then
    let parts := pySplit line
    if 6 ≤ parts.length then
      match collectLastFour cmsNumTok parts with
      | [a, b, c, _d] =>
        some { Date := parts.getD 0 ""
               Remark := if 2 < parts.length - 4 then
                   pyStrip (joinSpace ((parts.drop 2).take (parts.length - 6)))
                 else ""
               Debit := cmsAmt a
               Credit := cmsAmt b
               Saldo := clean_amount c }
      | _ => none
    else none
  else none

/-- `extract_cms_transactions` (src/bri_streamlit_app.py lines 138-201,
src/app.py lines 116-152). -/
def extract_cms_transactions (text : String) : List CmsTrx :=
  pyAppendLoop processLineCms (pyLines text)

/-! ## The counterparty attributor `extract_partner_name_bri` -/

/-- Skip-keyword list of the src/bri_streamlit_app.py variant
(lines 493-497).  Note the mixed-case entry `"Fee"`. -/
def skip_keywords_s : List String :=
  ["BIAYA", "ADM", "BUNGA", "PAJAK", "KLIRING", "TARIK TUNAI",
   "SETORAN", "BI-FAST", "BPJS", "TAX", "INTEREST",
   "Fee", "SINGLE CN", "POLLING", "REWARD", "CLAIM", "BPJS TK", "BPJS KESEHATAN"]

/-- Skip-keyword list of the src/app.py variant (lines 386-390), which
has `"FEE"` in upper case. -/
def skip_keywords_a : List String :=
  ["BIAYA", "ADM", "BUNGA", "PAJAK", "KLIRING", "TARIK TUNAI",
   "SETORAN", "BI-FAST", "BPJS", "TAX", "INTEREST",
   "FEE", "SINGLE CN", "POLLING", "REWARD", "CLAIM", "BPJS TK", "BPJS KESEHATAN"]

/-- `re.search(r'BM\d+', s)` as a Boolean: somewhere in `s` the letters
`BM` (case-sensitively) are followed by a digit. -/
def searchBM : List Char → Bool
  | [] => false
  | 'B' :: rest =>
    (match rest with
     | 'M' :: c :: _ => c.isDigit
     | _ => false) || searchBM rest
  | _ :: rest => searchBM rest

/-- Consume the literal characters `BM`. -/
def chompBM : List Char → Option (List Char)
  | 'B' :: 'M' :: r => some r
  | _ => none

/-- Consume a non-empty digit run (regex `\d+`, greedy). -/
def chompDigits1 (l : List Char) : Option (List Char) :=
  let d := l.takeWhile Char.isDigit
  if d.isEmpty then none else some (l.drop d.length)

/-- `re.match(r'^BM\d+\s+\d+\s+\d+', line)`. -/
def bmLineMatch (s : String) : Bool :=
  (do
    let l ← chompBM s.data
    let l ← chompDigits1 l
    let l ← chompWs1 l
    let l ← chompDigits1 l
    let l ← chompWs1 l
    let l ← chompDigits1 l
    pure l).isSome

/-- Try `BM\d+\s+\d+\s+\d+\s+(.+)` anchored at the head of `l`,
returning the `(.+)` group.  (The regex backtracking case in which
`(.+)` would have to swallow a final whitespace character cannot arise:
the lines this is applied to are `strip()`ed first, so whenever the
trailing `\s+` succeeds the remainder is non-empty.) -/
def bmTailAt (l : List Char) : Option (List Char) := do
  let r ← chompBM l
  let r ← chompDigits1 r
  let r ← chompWs1 r
  let r ← chompDigits1 r
  let r ← chompWs1 r
  let r ← chompDigits1 r
  let r ← chompWs1 r
  if r.isEmpty then none else some r

/-- `re.search(r'BM\d+\s+\d+\s+\d+\s+(.+)', line)`: leftmost match. -/
def bmSearchTail : List Char → Option (List Char)
  | [] => none
  | c :: t =>
    match bmTailAt (c :: t) with
    | some g => some g
    | none => bmSearchTail t

/-- `[word for word in s.split() if word.isalpha() and len(word) >= 2]`,
the word filter shared by most attributor branches. -/
def alphaWords2 (s : String) : List String :=
  (pySplit s).filter (fun w => pyIsAlphaStr w && 2 ≤ w.data.length)

/-- The line loop of the `BM\d+` branch (src/bri_streamlit_app.py lines
512-531, src/app.py lines 398-411): an `ESB:` line sets a flag and is
skipped; a `BM...`-shaped line contributes the alphabetic words of its
tail group; any other line contributes its alphabetic words only while
the `ESB:` flag is unset. -/
def bmWordsAux : Bool → List String → List String
  | _, [] => []
  | esb, ln :: t =>
    if pyStartsWith ln "ESB:" then bmWordsAux true t
    else if bmLineMatch ln then
      (match bmSearchTail ln.data with
       | some g => alphaWords2 (pyStrip ⟨g⟩)
       | none => []) ++ bmWordsAux esb t
    else if esb then bmWordsAux esb t
    else alphaWords2 ln ++ bmWordsAux esb t

/-- The `BM\d+` (payroll-batch) branch of the attributor: split the
description into stripped non-empty lines, collect company words, and
answer only if some words were found. -/
def bmBranch (cleaned : String) : Option String :=
  let lines := ((pyLines cleaned).map pyStrip).filter (fun l => l != "")
  let cw := bmWordsAux false lines
  if cw.isEmpty then none else some (joinSpace cw)

/-- Drop everything up to and including the first case-insensitive
occurrence of `nd`; `none` if `nd` does not occur. -/
def dropAfterCI (nd : List Char) : List Char → Option (List Char)
  | [] => if nd.isEmpty then some [] else none
  | c :: t =>
    if isPrefixListCI nd (c :: t) then some ((c :: t).drop nd.length)
    else dropAfterCI nd t

/-- Consume exactly one whitespace character. -/
def chompOneWs : List Char → Option (List Char)
  | c :: t => if pyIsSpace c then some t else none
  | [] => none

/-- Try the separator `\s+TO\s+` (case-insensitive) at the head of `l`,
returning the rest after it. -/
def toSepAt (l : List Char) : Option (List Char) := do
  let r ← chompWs1 l
  let r ← (match r with
           | a :: b :: rest =>
             if a.toUpper == 'T' && b.toUpper == 'O' then some rest else none
           | _ => none)
  chompWs1 r

/-- Scan for the earliest position where `\s+TO\s+` matches, returning
the characters before it (the lazy group `(.*?)`) and the rest after. -/
def findToSep : List Char → Option (List Char × List Char)
  | [] => none
  | c :: t =>
    match toSepAt (c :: t) with
    | some rest => some ([], rest)
    | none =>
      match findToSep t with
      | some (g, rest) => some (c :: g, rest)
      | none => none

/-- Take characters up to the first newline or case-insensitive `ESB:`
(the lazy group `(.*?)(?:\n|ESB:|$)` under `re.IGNORECASE|re.DOTALL`). -/
def takeUntilNlEsbCI : List Char → List Char
  | [] => []
  | c :: t =>
    if c == '\n' then []
    else if isPrefixListCI ['E', 'S', 'B', ':'] (c :: t) then []
    else c :: takeUntilNlEsbCI t

/-- The `NBMB` branch:
`re.search(r'NBMB\s+(.*?)\s+TO\s+(.*?)(?:\n|ESB:|$)', cleaned,
re.IGNORECASE | re.DOTALL)`; on a match answer the stripped receiver
(group 2) or, when it strips to empty, the stripped sender (group 1).
The `\s+` after `NBMB` is taken as one character, with the earliest
`\s+TO\s+` occurrence ending the lazy group 1; this differs from the
engine's exact split of whitespace between `\s+` and `(.*?)` only in
whitespace at the periphery of the groups, which the subsequent
`strip()` erases. -/
def nbmbBranch (cleaned : String) : Option String := do
  let afterN ← dropAfterCI ['N', 'B', 'M', 'B'] cleaned.data
  let afterWs ← chompOneWs afterN
  let (g1, afterSep) ← findToSep afterWs
  let receiver := pyStrip ⟨takeUntilNlEsbCI afterSep⟩
  let sender := pyStrip ⟨g1⟩
  pure (if receiver != "" then receiver else sender)

/-- `re.sub(r'WBNKTRF\w+', '', s, flags=re.IGNORECASE)`: remove every
case-insensitive `WBNKTRF` that is followed by at least one word
character, together with that maximal word-character run.  `fuel` (the
input length) bounds the recursion; every step consumes at least one
character. -/
def subWbnkAux : List Char → Nat → List Char
  | l, 0 => l
  | [], _ => []
  | c :: t, fuel + 1 =>
    if isPrefixListCI ['W', 'B', 'N', 'K', 'T', 'R', 'F'] (c :: t) then
      let rest := (c :: t).drop 7
      let w := rest.takeWhile pyIsWord
      if w.isEmpty then c :: subWbnkAux t fuel
      else subWbnkAux (rest.drop w.length) fuel
    else c :: subWbnkAux t fuel

/-- `re.sub(r'ESB:.*', '', s, flags=re.DOTALL)`: truncate at the first
case-sensitive `ESB:`. -/
def truncESB : List Char → List Char
  | [] => []
  | c :: t =>
    if isPrefixList ['E', 'S', 'B', ':'] (c :: t) then []
    else c :: truncESB t

/-- The `WBNKTRF` branch: strip the code tokens and the `ESB:` trailer,
then answer the alphabetic words if any. -/
def wbnkBranch (cleaned : String) : Option String :=
  let after := truncESB (subWbnkAux cleaned.data cleaned.data.length)
  let words := alphaWords2 ⟨after⟩
  if words.isEmpty then none else some (joinSpace words)

/-- `re.sub(r'BFST\d+', '', s, flags=re.IGNORECASE)`: remove every
case-insensitive `BFST` followed by at least one digit, with the maximal
digit run.  Fueled like `subWbnkAux`. -/
def subBfstAux : List Char → Nat → List Char
  | l, 0 => l
  | [], _ => []
  | c :: t, fuel + 1 =>
    if isPrefixListCI ['B', 'F', 'S', 'T'] (c :: t) then
      let rest := (c :: t).drop 4
      let d := rest.takeWhile Char.isDigit
      if d.isEmpty then c :: subBfstAux t fuel
      else subBfstAux (rest.drop d.length) fuel
    else c :: subBfstAux t fuel

/-- `re.sub(r'\d{8,}', '', s)`: remove every maximal digit run of length
at least 8.  Fueled like `subWbnkAux`. -/
def subLongDigitsAux : List Char → Nat → List Char
  | l, 0 => l
  | [], _ => []
  | c :: t, fuel + 1 =>
    if c.isDigit then
      let run := (c :: t).takeWhile Char.isDigit
      let rest := (c :: t).drop run.length
      if 8 ≤ run.length then subLongDigitsAux rest fuel
      else run ++ subLongDigitsAux rest fuel
    else c :: subLongDigitsAux t fuel

/-- The colon loop of the `BFST` branch: for each colon-delimited
segment, keep only letters and whitespace, strip, and answer the first
segment of length at least 3. -/
def firstColonName : List String → Option String
  | [] => none
  | n :: t =>
    let clean_name := pyStrip ⟨n.data.filter (fun c => c.isAlpha || pyIsSpace c)⟩
    if clean_name != "" && 3 ≤ clean_name.data.length then some clean_name
    else firstColonName t

/-- The `BFST` branch: strip `BFST`-codes, the `ESB:` trailer and long
digit runs; with a colon present, answer the first qualifying
colon-delimited name, else the alphabetic words if any. -/
def bfstBranch (cleaned : String) : Option String :=
  let c1 := subBfstAux cleaned.data cleaned.data.length
  let c2 := truncESB c1
  let content : List Char := subLongDigitsAux c2 c2.length
  if containsChar ':' ⟨content⟩ then
    firstColonName (splitOnChar ':' ⟨content⟩)
  else
    let words := alphaWords2 ⟨content⟩
    if words.isEmpty then none else some (joinSpace words)

/-- The bank-name triggers of the bank-reference branch. -/
def bankNames : List String := ["BCA", "BNI", "MANDIRI", "DANAMON"]

/-- The suffix alternatives of
`r'(.*?)(?:-BANK|-BCA|-BNI|-MANDIRI|-DANAMON)'`. -/
def bankSuffixes : List (List Char) :=
  [['-', 'B', 'A', 'N', 'K'], ['-', 'B', 'C', 'A'], ['-', 'B', 'N', 'I'],
   ['-', 'M', 'A', 'N', 'D', 'I', 'R', 'I'],
   ['-', 'D', 'A', 'N', 'A', 'M', 'O', 'N']]

/-- `re.search(r'(.*?)(?:-BANK|-BCA|-BNI|-MANDIRI|-DANAMON)', s,
re.IGNORECASE | re.DOTALL)`: the prefix before the earliest
case-insensitive occurrence of one of the suffixes, if any. -/
def findBankSep : List Char → Option (List Char)
  | [] => none
  | c :: t =>
    if bankSuffixes.any (fun sfx => isPrefixListCI sfx (c :: t)) then some []
    else
      match findBankSep t with
      | some g => some (c :: g)
      | none => none

/-- `re.sub(r'^(PT\s+)?', '', s, flags=re.IGNORECASE)`: drop a leading
case-insensitive `PT` followed by whitespace, if present. -/
def stripPTheader (l : List Char) : List Char :=
  match l with
  | p :: q :: rest =>
    if p.toUpper == 'P' && q.toUpper == 'T' then
      let w := rest.takeWhile pyIsSpace
      if w.isEmpty then l else rest.drop w.length
    else l
  | _ => l

/-- The bank-reference branch: take the text before the bank suffix,
strip an optional `PT` header, and answer the alphabetic words if any. -/
def bankBranch (cleaned : String) : Option String := do
  let g ← findBankSep cleaned.data
  let company := stripPTheader (pyStrip ⟨g⟩).data
  let words := alphaWords2 ⟨company⟩
  if words.isEmpty then none else some (joinSpace words)

/-- The `IBIZ` branch: with `" TO "` present in the uppercased text,
split the original text on `" TO "` (case-sensitively, as the source
does), truncate the receiver side at `ESB:`, and answer up to four
alphabetic words. -/
def ibizBranch (cleaned : String) : Option String :=
  if containsSub " TO " (pyUpper cleaned) then
    match splitOnSub " TO " cleaned with
    | _ :: p1 :: _ =>
      let receiver_part := pyStrip ((splitOnSub "ESB:" p1).getD 0 "")
      let words := alphaWords2 receiver_part
      if words.isEmpty then none else some (joinSpace (words.take 4))
    | _ => none
  else none

/-- Stop words removed by the generic fallback. -/
def stopWords : List String := ["THE", "AND", "OR", "TO", "FROM", "FOR", "WITH"]

/-- A word run that `re.sub(r'\b\d{7,}\b', '', s)` removes: at least
seven characters, all digits.  (Word-boundary anchors mean only whole
maximal word-character runs can match.) -/
def isLongDigitWord (w : List Char) : Bool :=
  7 ≤ w.length && w.all Char.isDigit

/-- A word run that `re.sub(r'\b[A-Z]{2,}\d+[A-Z]*\b', '', s)` removes:
two or more upper-case letters, then digits, then optional upper-case
letters, making up the whole run. -/
def isCodeWord (w : List Char) : Bool :=
  let u := w.takeWhile Char.isUpper
  let r1 := w.drop u.length
  let d := r1.takeWhile Char.isDigit
  let r2 := r1.drop d.length
  let u2 := r2.takeWhile Char.isUpper
  2 ≤ u.length && !d.isEmpty && (r2.drop u2.length).isEmpty

/-- Remove every maximal word-character run satisfying `p`, keeping all
separator characters.  This implements `re.sub` for a word-boundary
delimited pattern.  Fueled like `subWbnkAux`. -/
def removeWordRuns (p : List Char → Bool) : List Char → Nat → List Char
  | l, 0 => l
  | [], _ => []
  | c :: t, fuel + 1 =>
    if pyIsWord c then
      let run := (c :: t).takeWhile pyIsWord
      let rest := (c :: t).drop run.length
      if p run then removeWordRuns p rest fuel
      else run ++ removeWordRuns p rest fuel
    else c :: removeWordRuns p t fuel

/-- The generic fallback branch: truncate at `ESB:`, remove long
standalone numbers and alphanumeric code tokens, keep alphabetic words
of length at least 2 that are not stop words, and answer the first four
provided at least two survive. -/
def generalBranch (cleaned : String) : Option String :=
  let g0 := truncESB cleaned.data
  let g1 := removeWordRuns isLongDigitWord g0 g0.length
  let g2 := removeWordRuns isCodeWord g1 g1.length
  let words := alphaWords2 ⟨g2⟩
  let filtered := words.filter (fun w => !(stopWords.contains (pyUpper w)))
  if 2 ≤ filtered.length then some (joinSpace (filtered.take 4)) else none

/-- The grammar dispatch shared by both attributor variants
(src/bri_streamlit_app.py lines 502-619, src/app.py lines 393-469): the
`BM\d+` branch runs first and, if it produced no words, control falls
through to the `if`/`elif` chain; a chain branch whose internal match
fails answers `None` without trying later branches. -/
def partnerBranches (cleaned : String) : Option String :=
  let viaBM : Option String :=
    if searchBM cleaned.data then bmBranch cleaned else none
  match viaBM with
  | some r => some r
  | none =>
    if containsSub "NBMB" (pyUpper cleaned) then nbmbBranch cleaned
    else if containsSub "WBNKTRF" (pyUpper cleaned) then wbnkBranch cleaned
    else if containsSub "BFST" (pyUpper cleaned) then bfstBranch cleaned
    else if bankNames.any (fun b => containsSub b (pyUpper cleaned)) then bankBranch cleaned
    else if containsSub "IBIZ" (pyUpper cleaned) then ibizBranch cleaned
    else if containsSub "PAYROLL" (pyUpper cleaned) then some "PAYROLL"
    else if containsSub "SETOR" (pyUpper cleaned) && containsSub "PENJUALAN" (pyUpper cleaned) then
      some "PENJUALAN INTERNAL"
    else generalBranch cleaned

/-- `extract_partner_name_bri` (src/bri_streamlit_app.py lines 487-619):
empty (falsy) descriptions answer `None`; then the skip-keyword
exclusion; then the grammar dispatch on the stripped description. -/
def extract_partner_name_bri_s (description : String) : Option String :=
  if description == "" then none
  else if skip_keywords_s.any (fun k => containsSub k (pyUpper description)) then none
  else partnerBranches (pyStrip description)

/-- `extract_partner_name_bri` (src/app.py lines 383-469): identical to
the streamlit variant except that its guard only rejects `None`/NaN (so
the empty string goes through the branches) and its skip list carries
`"FEE"` in upper case. -/
def extract_partner_name_bri_a (description : String) : Option String :=
  if skip_keywords_a.any (fun k => containsSub k (pyUpper description)) then none
  else partnerBranches (pyStrip description)

/-! ## Format detection, enrichment and the partner aggregators -/

/-- A transaction table, as handed between pipeline stages.  A pandas
`DataFrame` built from a list of `extract_cms_transactions` dicts has
the `Remark`/`Debit`/`Credit` columns, one built from
`extract_transactions` dicts the `deskripsi`/`debit`/`kredit` columns;
`other` stands for a non-empty frame whose columns match neither format
(its rows are never inspected by the functions modelled here). -/
inductive Table where
  | cms (rows : List CmsTrx)
  | est (rows : List EstTrx)
  | other (rows : List Unit)
deriving DecidableEq, Repr

/-- `df.empty`. -/
def Table.isEmpty : Table → Bool
  | .cms rows => rows.isEmpty
  | .est rows => rows.isEmpty
  | .other rows => rows.isEmpty

/-- `detect_bri_format` (src/bri_streamlit_app.py lines 621-627,
src/app.py lines 471-477): `'CMS'` when a `Remark` column is present,
`'E_STATEMENT'` when a `deskripsi` column is, else `'UNKNOWN'`.  A frame
built from an empty record list has no columns at all, hence
`'UNKNOWN'`. -/
def detect_bri_format : Table → String
  | .cms rows => if rows.isEmpty then "UNKNOWN" else "CMS"
  | .est rows => if rows.isEmpty then "UNKNOWN" else "E_STATEMENT"
  | .other _ => "UNKNOWN"

/-- The `transaction_type` lambda of `analyze_bri_partners_unified`
(src/bri_streamlit_app.py lines 655-658, src/app.py line 491):
`'DEBIT' if debit > 0 else 'CREDIT' if credit > 0 else 'UNKNOWN'`. -/
def transaction_type (debit credit : ℚ) : String :=
  if 0 < debit then "DEBIT" else if 0 < credit then "CREDIT" else "UNKNOWN"

/-- A transaction row after `analyze_bri_partners_unified` has added the
`partner_name`, `transaction_type` and `amount` columns.  The original
format-specific columns other than description/debit/credit are carried
along by pandas but never read downstream, so they are not modelled. -/
structure EnrichedRow where
  desc : String
  debit : ℚ
  credit : ℚ
  partner_name : Option String
  transaction_type : String
  amount : ℚ
deriving DecidableEq, Repr

/-- Enrich one row: `partner_name` from the attributor, the derived
direction, and `amount = debit + credit`. -/
def enrichOne (pf : String → Option String) (desc : String) (debit credit : ℚ) : EnrichedRow :=
  { desc := desc, debit := debit, credit := credit,
    partner_name := pf desc,
    transaction_type := transaction_type debit credit,
    amount := debit + credit }

/-- Column selection plus enrichment of a whole table
(src/bri_streamlit_app.py lines 638-661, src/app.py lines 484-492). -/
def enrichRows (pf : String → Option String) : Table → List EnrichedRow
  | .cms rows => rows.map (fun r => enrichOne pf r.Remark r.Debit r.Credit)
  | .est rows => rows.map (fun r => enrichOne pf r.deskripsi r.debit r.kredit)
  | .other _ => []

/-- The columns of a row that the two summary builders read:
`partner_name` and the (format-resolved) debit/credit columns. -/
structure PRow where
  partner_name : Option String
  debit : ℚ
  credit : ℚ
deriving DecidableEq, Repr

/-- Projection of an enriched row to the summary builders' input. -/
def EnrichedRow.toPRow (r : EnrichedRow) : PRow :=
  { partner_name := r.partner_name, debit := r.debit, credit := r.credit }

/-- First-occurrence deduplication, the order `pandas.Series.unique`
and insertion-ordered grouping use. -/
def uniqueFirstAux {α : Type} [DecidableEq α] (seen : List α) : List α → List α
  | [] => []
  | a :: t => if a ∈ seen then uniqueFirstAux seen t else a :: uniqueFirstAux (a :: seen) t

/-- `pandas.Series.unique`: the distinct values in first-occurrence
order. -/
def uniqueFirst {α : Type} [DecidableEq α] (l : List α) : List α := uniqueFirstAux [] l

/-- One row of `create_partner_summary_table`'s output. -/
structure SummaryRow where
  Partner : String
  Total_Credit : ℚ
  Total_Debit : ℚ
  Credit_Count : ℕ
  Debit_Count : ℕ
  Total_Transactions : ℕ
deriving DecidableEq, Repr

/-- The per-partner aggregation step of `create_partner_summary_table`
(src/bri_streamlit_app.py lines 707-723, src/app.py lines 521-535). -/
def summaryRowFor (pt : List PRow) (p : String) : SummaryRow :=
  let pd := pt.filter (fun r => r.partner_name == some p)
  { Partner := p
    Total_Credit := (pd.map (fun r => r.credit)).sum
    Total_Debit := (pd.map (fun r => r.debit)).sum
    Credit_Count := (pd.filter (fun r => 0 < r.credit)).length
    Debit_Count := (pd.filter (fun r => 0 < r.debit)).length
    Total_Transactions := pd.length }

/-- `create_partner_summary_table` (src/bri_streamlit_app.py lines
684-730, src/app.py lines 507-539): keep the rows with a non-null
partner, build one row per distinct partner (first-occurrence order),
then sort by total volume descending and drop the helper column.  The
source sorts with pandas' default unstable quicksort, so the relative
order of equal-volume rows is unspecified there; no property proved
below depends on the order of the output rows. -/
def create_partner_summary_table (rows : List PRow) : List SummaryRow :=
  let pt := rows.filter (fun r => r.partner_name.isSome)
  if pt.isEmpty then []
  else
    let partners := uniqueFirst (pt.filterMap (fun r => r.partner_name))
    let summary := partners.map (summaryRowFor pt)
    List.insertionSort
      (fun x y => y.Total_Credit + y.Total_Debit ≤ x.Total_Credit + x.Total_Debit) summary

/-- One row of the per-(partner, direction) aggregate `partner_summary`
built inside `analyze_bri_partners_unified`. -/
structure GroupRow where
  partner_name : String
  transaction_type : String
  debit : ℚ
  credit : ℚ
  amount : ℚ
  transaction_count : ℕ
deriving DecidableEq, Repr

/-- Lexicographic character comparison by code point (Python `<` on
single characters). -/
def charLtB (a b : Char) : Bool := Nat.blt a.toNat b.toNat

/-- Python string `<=`: lexicographic by code point. -/
def strLeAux : List Char → List Char → Bool
  | [], _ => true
  | _ :: _, [] => false
  | a :: s, b :: t => if a == b then strLeAux s t else charLtB a b

/-- Python string `<=` on `String`; this is the key order used by
pandas' `groupby(sort=True)`. -/
def strLe (x y : String) : Bool := strLeAux x.data y.data

/-- Lexicographic order on (partner, type) pairs, the sorted key order
of `groupby(['partner_name', 'transaction_type'])`. -/
def pairLe (x y : String × String) : Bool :=
  if x.1 == y.1 then strLe x.2 y.2 else strLe x.1 y.1

/-- The per-key aggregation of the `partner_summary` groupby
(src/bri_streamlit_app.py lines 670-675, src/app.py lines 496-502). -/
def groupRowFor (pt : List EnrichedRow) (k : String × String) : GroupRow :=
  let g := pt.filter (fun r => r.partner_name == some k.1 && r.transaction_type == k.2)
  { partner_name := k.1, transaction_type := k.2,
    debit := (g.map (fun r => r.debit)).sum,
    credit := (g.map (fun r => r.credit)).sum,
    amount := (g.map (fun r => r.amount)).sum,
    transaction_count := g.length }

/-- The `partner_summary` frame of `analyze_bri_partners_unified`:
group the attributed rows by (partner, type) — pandas sorts the group
keys — aggregate, then re-sort by summed amount descending (again with
an unstable sort in the source; no proved property depends on row
order). -/
def partnerSummaryRows (pt : List EnrichedRow) : List GroupRow :=
  let keys := List.insertionSort (fun a b => pairLe a b = true)
    (uniqueFirst (pt.filterMap (fun r => r.partner_name.map (fun p => (p, r.transaction_type)))))
  let rows := keys.map (groupRowFor pt)
  List.insertionSort (fun x y => y.amount ≤ x.amount) rows

/-- The first result of `analyze_bri_partners_unified`: the input frame
itself (empty-input and unknown-format branches), the enriched
per-transaction frame (no partner found), or the per-(partner, type)
aggregate. -/
inductive AnalyzeFirst where
  | table (t : Table)
  | enriched (rows : List EnrichedRow)
  | grouped (rows : List GroupRow)
deriving DecidableEq, Repr

/-- `analyze_bri_partners_unified` (src/bri_streamlit_app.py lines
629-682, src/app.py lines 479-505), parameterized by the attributor
variant `pf`: an empty frame is returned unchanged with an empty second
result; so is a frame whose columns match neither format; otherwise the
frame is enriched, and if no row got a partner the enriched frame is
returned with an empty second result; else the (partner, type)
aggregate and `create_partner_summary_table` of the full enriched
frame. -/
def analyze_core (pf : String → Option String) (t : Table) : AnalyzeFirst × List SummaryRow :=
  if t.isEmpty then (.table t, [])
  else if detect_bri_format t == "UNKNOWN" then (.table t, [])
  else
    let enr := enrichRows pf t
    let pt := enr.filter (fun r => r.partner_name.isSome)
    if pt.isEmpty then (.enriched enr, [])
    else (.grouped (partnerSummaryRows pt),
          create_partner_summary_table (enr.map EnrichedRow.toPRow))

/-- `analyze_bri_partners_unified` with the src/bri_streamlit_app.py
attributor. -/
def analyze_bri_partners_unified_s (t : Table) : AnalyzeFirst × List SummaryRow :=
  analyze_core extract_partner_name_bri_s t

/-- `analyze_bri_partners_unified` with the src/app.py attributor. -/
def analyze_bri_partners_unified_a (t : Table) : AnalyzeFirst × List SummaryRow :=
  analyze_core extract_partner_name_bri_a t

/-- The single row of `create_partner_statistics_summary`'s output. -/
structure StatsRow where
  No_of_Credit : ℕ
  No_of_Debit : ℕ
  Total_Credit_Amount : ℚ
  Total_Debit_Amount : ℚ
  Total_Partners : ℕ
  Top_Partner : String
  Top_Partner_Amount : ℚ
deriving DecidableEq, Repr

/-- The fold behind `Series.idxmax`: keep the current best, replace it
only when a strictly larger value appears — so the first maximum in
list order wins. -/
def idxmaxAux {α : Type} (f : α → ℚ) : α → List α → α
  | best, [] => best
  | best, x :: t => idxmaxAux f (if f best < f x then x else best) t

/-- `idxmax` over a list: the first element attaining the maximum of
`f`, `none` on an empty list. -/
def firstMaxBy {α : Type} (f : α → ℚ) : List α → Option α
  | [] => none
  | a :: t => some (idxmaxAux f a t)

/-- The group keys of `groupby('partner_name')` in sorted order (pandas
sorts keys ascending by default). -/
def sortedPartners (pt : List PRow) : List String :=
  List.insertionSort (fun a b => strLe a b = true)
    (uniqueFirst (pt.filterMap (fun r => r.partner_name)))

/-- A partner's `total_volume`: summed debit plus summed credit over the
rows attributed to it. -/
def partnerVolume (pt : List PRow) (p : String) : ℚ :=
  ((pt.filter (fun r => r.partner_name == some p)).map (fun r => r.debit)).sum +
  ((pt.filter (fun r => r.partner_name == some p)).map (fun r => r.credit)).sum

/-- `create_partner_statistics_summary` (src/bri_streamlit_app.py lines
732-787, src/app.py lines 541-573): keep rows with a partner (`none`
models the empty-frame early returns), count and sum credit and debit
sides, count distinct partners, and report as top partner the
`idxmax` of `total_volume` over the sorted-key groupby frame. -/
def create_partner_statistics_summary (rows : List PRow) : Option StatsRow :=
  let pt := rows.filter (fun r => r.partner_name.isSome)
  if pt.isEmpty then none
  else
    let keys := sortedPartners pt
    let top := firstMaxBy (partnerVolume pt) keys
    some { No_of_Credit := (pt.filter (fun r => 0 < r.credit)).length
           No_of_Debit := (pt.filter (fun r => 0 < r.debit)).length
           Total_Credit_Amount := (pt.map (fun r => r.credit)).sum
           Total_Debit_Amount := (pt.map (fun r => r.debit)).sum
           Total_Partners := (uniqueFirst (pt.filterMap (fun r => r.partner_name))).length
           Top_Partner := match top with | some p => p | none => ""
           Top_Partner_Amount := match top with | some p => partnerVolume pt p | none => 0 }

/-! ## The CMS account-information header parser -/

/-- `re.search` position scan: try a matcher at every start position,
left to right (including the empty suffix), and keep the first hit. -/
def searchPos {α : Type} (tryAt : List Char → Option α) : List Char → Option α
  | [] => tryAt []
  | c :: t =>
    match tryAt (c :: t) with
    | some r => some r
    | none => searchPos tryAt t

/-- Consume a case-insensitive literal. -/
def chompLitCI (lit : List Char) (l : List Char) : Option (List Char) :=
  if isPrefixListCI lit l then some (l.drop lit.length) else none

/-- `\s*`: drop any whitespace run. -/
def chompWs0 (l : List Char) : List Char := l.dropWhile pyIsSpace

/-- `:?`: drop one optional colon. -/
def chompOptColon : List Char → List Char
  | ':' :: t => t
  | l => l

/-- Consume exactly `n` digits, returning them and the rest. -/
def takeDigitsN : Nat → List Char → Option (List Char × List Char)
  | 0, l => some ([], l)
  | n + 1, c :: t =>
    if c.isDigit then (takeDigitsN n t).map (fun gr => (c :: gr.1, gr.2))
    else none
  | _ + 1, [] => none

/-- The shared prefix `Account\s+No` of the account-number patterns. -/
def tryAcctPrefix (l : List Char) : Option (List Char) := do
  let r ← chompLitCI ['A', 'C', 'C', 'O', 'U', 'N', 'T'] l
  let r ← chompWs1 r
  chompLitCI ['N', 'O'] r

/-- The capture group `(\d{4}-\d{2}-\d{6}-\d{2}-\d)`. -/
def matchAcctShape (l : List Char) : Option (List Char) := do
  let (g1, r) ← takeDigitsN 4 l
  let r ← chompChar '-' r
  let (g2, r) ← takeDigitsN 2 r
  let r ← chompChar '-' r
  let (g3, r) ← takeDigitsN 6 r
  let r ← chompChar '-' r
  let (g4, r) ← takeDigitsN 2 r
  let r ← chompChar '-' r
  let (g5, _r) ← takeDigitsN 1 r
  pure (g1 ++ '-' :: g2 ++ '-' :: g3 ++ '-' :: g4 ++ '-' :: g5)

/-- Account-number pattern 1,
`r'Account\s+No\s*:?\s*(\d{4}-\d{2}-\d{6}-\d{2}-\d)'`.  Pattern 3 of the
source list, `r'Account\s+No\s*\n*\s*:?\s*(...)'`, is the same matcher:
`\s*\n*\s*` accepts exactly the whitespace runs `\s*` does. -/
def tryAcctNo1 (l : List Char) : Option String := do
  let r ← tryAcctPrefix l
  let r := chompWs0 (chompOptColon (chompWs0 r))
  let g ← matchAcctShape r
  pure ⟨g⟩

/-- Account-number pattern 2, `r'Account\s+No\s*:?\s*(\d+)'`. -/
def tryAcctNo2 (l : List Char) : Option String := do
  let r ← tryAcctPrefix l
  let r := chompWs0 (chompOptColon (chompWs0 r))
  let d := r.takeWhile Char.isDigit
  if d.isEmpty then none else pure ⟨d⟩

/-- Account-number pattern 4, `r'Account\s+No\s*\n*\s*(\d+)'`: as
pattern 2 but without the optional colon. -/
def tryAcctNo4 (l : List Char) : Option String := do
  let r ← tryAcctPrefix l
  let r := chompWs0 r
  let d := r.takeWhile Char.isDigit
  if d.isEmpty then none else pure ⟨d⟩

/-- Try a prioritized list of pattern matchers against the full text,
first match wins (the source's `for pattern in patterns: ... break`
loops). -/
def findFirst {α : Type} (fs : List (List Char → Option α)) (l : List Char) : Option α :=
  match fs with
  | [] => none
  | f :: t =>
    match searchPos f l with
    | some g => some g
    | none => findFirst t l

/-- The character class `[A-Z\s&\.]` under `re.IGNORECASE`. -/
def nameClassChar (c : Char) : Bool :=
  c.isAlpha || pyIsSpace c || c == '&' || c == '.'

/-- `\s*lit1\s*lit2...` lookahead test at a position. -/
def lookSeq (lits : List (List Char)) (l : List Char) : Bool :=
  match lits with
  | [] => true
  | lit :: rest =>
    match chompLitCI lit (chompWs0 l) with
    | some r => lookSeq rest r
    | none => false

/-- `\s*\n` lookahead: a newline occurs within the leading whitespace
run. -/
def lookWsNl (l : List Char) : Bool :=
  match l.dropWhile (fun c => pyIsSpace c && !(c == '\n')) with
  | '\n' :: _ => true
  | _ => false

/-- Lazy group growth: with the minimum already consumed (in `acc`,
reversed), stop as soon as the lookahead holds, else consume one more
class character; fail when neither is possible. -/
def lazyGrow (classFn : Char → Bool) (look : List Char → Bool) :
    List Char → List Char → Option (List Char)
  | acc, rest =>
    if look rest then some acc.reverse
    else
      match rest with
      | c :: t => if classFn c then lazyGrow classFn look (c :: acc) t else none
      | [] => none

/-- A lazy name group `([A-Z][A-Z\s&\.]+?)(?=LOOK)` under
`re.IGNORECASE`: one letter, one class character, then minimal growth
until the lookahead holds. -/
def lazyNameGroup (look : List Char → Bool) (l : List Char) : Option String :=
  match l with
  | c :: d :: t =>
    if c.isAlpha && nameClassChar d then
      (lazyGrow nameClassChar look [d, c] t).map (fun g => ⟨g⟩)
    else none
  | _ => none

/-- The shared prefix `Account\s+Name` of the name patterns. -/
def tryNamePrefix (l : List Char) : Option (List Char) := do
  let r ← chompLitCI ['A', 'C', 'C', 'O', 'U', 'N', 'T'] l
  let r ← chompWs1 r
  chompLitCI ['N', 'A', 'M', 'E'] r

/-- Name pattern 1:
`r'Account\s+Name\s*:?\s*([A-Z][A-Z\s&\.]+?)(?=\s*Today\s*Hold|\s*Period|\s*Account\s*Status)'`. -/
def tryName1 (l : List Char) : Option String := do
  let r ← tryNamePrefix l
  let r := chompWs0 (chompOptColon (chompWs0 r))
  lazyNameGroup (fun l =>
    lookSeq [['T', 'O', 'D', 'A', 'Y'], ['H', 'O', 'L', 'D']] l ||
    lookSeq [['P', 'E', 'R', 'I', 'O', 'D']] l ||
    lookSeq [['A', 'C', 'C', 'O', 'U', 'N', 'T'], ['S', 'T', 'A', 'T', 'U', 'S']] l) r

/-- Name patterns 2 and 3 share one matcher: pattern 2 is pattern 1 with
`\s*\n*\s*` (which equals `\s*`) and the lookahead `Today` without
`Hold`; pattern 3 drops the optional colon, which only matters when a
colon follows the label, a case pattern 2 already claimed. -/
def tryName2 (l : List Char) : Option String := do
  let r ← tryNamePrefix l
  let r := chompWs0 (chompOptColon (chompWs0 r))
  lazyNameGroup (fun l =>
    lookSeq [['T', 'O', 'D', 'A', 'Y']] l ||
    lookSeq [['P', 'E', 'R', 'I', 'O', 'D']] l ||
    lookSeq [['A', 'C', 'C', 'O', 'U', 'N', 'T'], ['S', 'T', 'A', 'T', 'U', 'S']] l) r

/-- Name pattern 4, `r'Account\s+Name\s*:?\s*(PT\s+[A-Z\s]+)'`: the
group includes the literal `PT` and the following whitespace and
letter/whitespace run.  (When only whitespace follows `PT`, the engine
backtracks one whitespace character into the class; the group is
stripped by the caller, so the model requires a non-empty run or two
whitespace characters without reconstructing the exact split.) -/
def tryName4 (l : List Char) : Option String := do
  let r ← tryNamePrefix l
  let r := chompWs0 (chompOptColon (chompWs0 r))
  let r ← chompLitCI ['P', 'T'] r
  let w := r.takeWhile pyIsSpace
  if w.isEmpty then none
  else
    let rest := r.drop w.length
    let run := rest.takeWhile (fun c => c.isAlpha || pyIsSpace c)
    if run.isEmpty && w.length < 2 then none
    else pure ⟨'P' :: 'T' :: (w ++ run)⟩

/-- Name pattern 5, `r'Account\s+Name\s*:?\s*([A-Z][A-Z\s&\.PT]+)'`:
greedy, no lookahead (`P` and `T` are already in `[A-Z]`). -/
def tryName5 (l : List Char) : Option String := do
  let r ← tryNamePrefix l
  let r := chompWs0 (chompOptColon (chompWs0 r))
  match r with
  | c :: t =>
    if c.isAlpha then
      let run := t.takeWhile nameClassChar
      if run.isEmpty then none else pure ⟨c :: run⟩
    else none
  | [] => none

/-- Name pattern 6,
`r'Account\s+Name\s*:?\s*([A-Z\s&\.PT]+?)(?=\s*\n|\s*Today|\s*Period|\s*Account)'`:
the first group character may be any class character and the minimum
length is one. -/
def tryName6 (l : List Char) : Option String := do
  let r ← tryNamePrefix l
  let r := chompWs0 (chompOptColon (chompWs0 r))
  match r with
  | c :: t =>
    if nameClassChar c then
      (lazyGrow nameClassChar (fun l =>
        lookWsNl l ||
        lookSeq [['T', 'O', 'D', 'A', 'Y']] l ||
        lookSeq [['P', 'E', 'R', 'I', 'O', 'D']] l ||
        lookSeq [['A', 'C', 'C', 'O', 'U', 'N', 'T']] l) [c] t).map (fun g => ⟨g⟩)
    else none
  | [] => none

/-- The capture group `(\d{2}/\d{2}/\d{4})`. -/
def matchDateDDMMYYYY (l : List Char) : Option (List Char × List Char) := do
  let (d1, r) ← takeDigitsN 2 l
  let r ← chompChar '/' r
  let (d2, r) ← takeDigitsN 2 r
  let r ← chompChar '/' r
  let (d3, r) ← takeDigitsN 4 r
  pure (d1 ++ '/' :: d2 ++ '/' :: d3, r)

/-- Period pattern,
`r'Period\s*:?\s*(\d{2}/\d{2}/\d{4})\s*-\s*(\d{2}/\d{2}/\d{4})'`.
The second pattern of the source list (with `\s*\n*\s*`) is the same
matcher. -/
def tryPeriodPat (l : List Char) : Option (String × String) := do
  let r ← chompLitCI ['P', 'E', 'R', 'I', 'O', 'D'] l
  let r := chompWs0 (chompOptColon (chompWs0 r))
  let (d1, r) ← matchDateDDMMYYYY r
  let r := chompWs0 r
  let r ← chompChar '-' r
  let r := chompWs0 r
  let (d2, _r) ← matchDateDDMMYYYY r
  pure (⟨d1⟩, ⟨d2⟩)

/-- The account-information record built by `extract_cms_account_info`
(dict keys `Bank`, `Account Name`, `Account Number`, `Start Period`,
`End Period`). -/
structure AccountInfoCms where
  Bank : String
  Account_Name : Option String
  Account_Number : Option String
  Start_Period : Option String
  End_Period : Option String
deriving DecidableEq, Repr

/-- Lines 57-136 of `extract_cms_account_info`
(src/bri_streamlit_app.py): run the prioritized pattern lists for the
account number, account name and period.  The final
`if not account_info:` fallback block (lines 108-134) can never run —
`account_info` is a five-key dict and therefore always truthy — so that
dead block is not modelled. -/
def extract_cms_account_info_body (text : String) : AccountInfoCms :=
  let num := findFirst [tryAcctNo1, tryAcctNo2, tryAcctNo1, tryAcctNo4] text.data
  let name := findFirst [tryName1, tryName2, tryName2, tryName4, tryName5, tryName6] text.data
  let per := findFirst [tryPeriodPat, tryPeriodPat] text.data
  { Bank := "BRI"
    Account_Name := name.map pyStrip
    Account_Number := num.map pyStrip
    Start_Period := per.map (fun p => p.1)
    End_Period := per.map (fun p => p.2) }

/-- The global name `clean_statement_lines` referenced by
`extract_cms_account_info` (src/bri_streamlit_app.py line 56).  It is
defined nowhere in the module and not imported, so evaluating the call
raises `NameError`. -/
def clean_statement_lines : String → Except PyError (List String) :=
  fun _ => Except.error PyError.nameError

/-- `extract_cms_account_info` (src/bri_streamlit_app.py lines 55-136):
its first statement is `lines = clean_statement_lines(text)`, whose
name lookup raises `NameError` before any extraction runs; if that call
returned, the rest of the body would build the account-info record. -/
def extract_cms_account_info_s (text : String) : Except PyError AccountInfoCms :=
  (clean_statement_lines text).map (fun _lines => extract_cms_account_info_body text)

/-! ## The two orchestrators -/

/-- The transaction-table component of `parse_bri_statement`
(src/app.py lines 579-600): run `extract_transactions` first; when it
yields no records, fall back to the CMS family's result.  (The
metadata components of the returned tuple are not claim-relevant and
not modelled; `read_pdf_to_text` is the external `text_of` collaborator,
so the model takes the extracted text directly.) -/
def parse_bri_statement_a_trx (text : String) : Table :=
  let trx_2025 := extract_transactions text
  if trx_2025.isEmpty then Table.cms (extract_cms_transactions text)
  else Table.est trx_2025

/-- The transaction-table component of `parse_bri_statement`
(src/bri_streamlit_app.py lines 789-831): the parser family is chosen
by the filename heuristic alone — no `"2025"` in the file id selects
the CMS family, otherwise the e-statement family — with no fallback.
In the CMS branch the call to `extract_cms_account_info` raises
`NameError` before any transactions are extracted, so that branch
errors out.  The model takes the extracted text and the computed
`file_id` directly. -/
def parse_bri_statement_s_trx (text file_id : String) : Except PyError Table :=
  if !(containsSub "2025" file_id) then
    (extract_cms_account_info_s text).map (fun _info => Table.cms (extract_cms_transactions text))
  else
    Except.ok (Table.est (extract_transactions text))

/-! ## Well-formed-input conditions for the direction invariant -/

/-- A line is well formed for `extract_transactions`' direction
invariant when, IF the parser emits a record from it, its collected
debit or credit token is the literal zero amount `"0.00"` (the way the
source format encodes direction).  A line that produces no record — a
blank line, a non-anchor line such as a balance-summary row, or an
anchor line without four collected tokens — is unconstrained. -/
def estLineZeroOk (rawLine : String) : Bool :=
  match processLineEst rawLine with
  | none => true
  | some _ =>
    match collectLastFour estNumTok (pySplit (pyStrip rawLine)) with
    | [_, b, c, _] => b == "0.00" || c == "0.00"
    | _ => true

/-- The analogous condition for `extract_cms_transactions`, whose debit
and credit tokens are the first two collected tokens; again only lines
that actually emit a record are constrained. -/
def cmsLineZeroOk (rawLine : String) : Bool :=
  match processLineCms rawLine with
  | none => true
  | some _ =>
    match collectLastFour cmsNumTok (pySplit (pyStrip rawLine)) with
    | [a, b, _, _] => a == "0.00" || b == "0.00"
    | _ => true

/-! ## Helper lemmas -/

theorem foldl_emit_eq_filterMap {α β : Type} (f : α → Option β) :
    ∀ (l : List α) (acc : List β),
      l.foldl (fun acc x => match f x with | some t => acc ++ [t] | none => acc) acc
        = acc ++ l.filterMap f := by
  intro l
  induction l with
  | nil => intro acc; simp
  | cons a t ih =>
    intro acc
    cases h : f a <;> simp [List.foldl_cons, h, ih, List.filterMap_cons]

theorem pyAppendLoop_eq_filterMap {α β : Type} (f : α → Option β) (l : List α) :
    pyAppendLoop f l = l.filterMap f := by
  unfold pyAppendLoop
  rw [foldl_emit_eq_filterMap]
  simp

theorem extract_transactions_eq_filterMap (text : String) :
    extract_transactions text = (pyLines text).filterMap processLineEst :=
  pyAppendLoop_eq_filterMap _ _

theorem extract_cms_transactions_eq_filterMap (text : String) :
    extract_cms_transactions text = (pyLines text).filterMap processLineCms :=
  pyAppendLoop_eq_filterMap _ _

theorem collectLastFour_pred {pred : String → Bool} {parts : List String} {x : String}
    (hm : x ∈ collectLastFour pred parts) : pred x = true := by
  unfold collectLastFour at hm
  rw [List.mem_reverse] at hm
  exact (List.mem_filter.mp (List.take_subset 4 _ hm)).2

theorem mem_stripChars {c : Char} {l : List Char} (h : c ∈ stripChars l) : c ∈ l := by
  unfold stripChars at h
  rw [List.mem_reverse] at h
  have h2 : c ∈ (l.dropWhile pyIsSpace).reverse := (List.dropWhile_sublist _).subset h
  rw [List.mem_reverse] at h2
  exact (List.dropWhile_sublist _).subset h2

theorem pyFloatCore_nonneg {l : List Char} {q : ℚ} (h : pyFloatCore l = some q) : 0 ≤ q := by
  simp only [pyFloatCore] at h
  split at h
  · split at h
    · exact absurd h (by simp)
    · rw [Option.some.injEq] at h
      rw [← h]
      positivity
  · split at h
    · exact absurd h (by simp)
    · split at h
      · exact absurd h (by simp)
      · rw [Option.some.injEq] at h
        rw [← h]
        positivity
  · exact absurd h (by simp)

theorem pyFloatD_nonneg {s : String} (h : '-' ∉ s.data) : 0 ≤ pyFloatD s := by
  have core : ∀ o : Option ℚ, (∀ q, o = some q → 0 ≤ q) → 0 ≤ o.getD 0 := by
    intro o ho
    cases o with
    | none => simp
    | some q => simpa using ho q rfl
  apply core
  intro q hq
  simp only [pyFloatOpt] at hq
  split at hq
  · next heq =>
    rcases Option.map_eq_some'.mp hq with ⟨q0, hq0, hneg⟩
    exact absurd (mem_stripChars (heq ▸ List.mem_cons_self '-' _)) h
  · exact pyFloatCore_nonneg hq
  · exact pyFloatCore_nonneg hq

theorem numericShaped_no_minus {s : String} (h : numericShaped s = true) : '-' ∉ s.data := by
  intro hm
  simp only [numericShaped, Bool.and_eq_true, List.all_eq_true] at h
  exact absurd (h.2 '-' hm) (by decide)

theorem sevenDigits_no_minus {s : String} (h : sevenDigits s = true) : '-' ∉ s.data := by
  intro hm
  simp only [sevenDigits, Bool.and_eq_true, List.all_eq_true] at h
  exact absurd (h.2 '-' hm) (by decide)

theorem estNumTok_no_minus {s : String} (h : estNumTok s = true) : '-' ∉ s.data := by
  rcases Bool.or_eq_true_iff.mp h with h1 | h1
  · exact numericShaped_no_minus h1
  · exact sevenDigits_no_minus h1

theorem cmsNumTok_no_minus {s : String} (h : cmsNumTok s = true) : '-' ∉ s.data := by
  unfold cmsNumTok at h
  rcases Bool.or_eq_true_iff.mp h with h2 | h1
  · rcases Bool.or_eq_true_iff.mp h2 with h2 | h1
    · rcases Bool.or_eq_true_iff.mp h2 with h2 | h1
      · rcases Bool.or_eq_true_iff.mp h2 with h1 | h1
        · exact numericShaped_no_minus h1
        · exact sevenDigits_no_minus h1
      · rw [show s = "CMSPYRL" from by simpa using h1]; decide
    · rw [show s = "BRI0372" from by simpa using h1]; decide
  · rw [show s = "BRIMDBT" from by simpa using h1]; decide

theorem clean_amount_nonneg {s : String} (h : '-' ∉ s.data) : 0 ≤ clean_amount s := by
  have hclean : ∀ p : Char → Bool, '-' ∉ (String.mk (s.data.filter p)).data := by
    intro p hm
    exact h (List.mem_filter.mp hm).1
  have hclean2 : ∀ p q : Char → Bool, '-' ∉ (String.mk ((s.data.filter p).filter q)).data := by
    intro p q hm
    exact h (List.mem_filter.mp (List.mem_filter.mp hm).1).1
  simp only [clean_amount]
  split
  · exact le_refl 0
  · split
    · split
      · split
        · exact pyFloatD_nonneg (hclean _)
        · exact pyFloatD_nonneg (hclean2 _ _)
      · exact pyFloatD_nonneg (hclean2 _ _)
    · exact pyFloatD_nonneg (hclean _)

theorem cmsAmt_nonneg {s : String} (h : '-' ∉ s.data) : 0 ≤ cmsAmt s := by
  unfold cmsAmt
  split
  · exact le_refl 0
  · exact clean_amount_nonneg h

theorem processLineEst_some {line : String} {t : EstTrx} (h : processLineEst line = some t) :
    ∃ a b c d, collectLastFour estNumTok (pySplit (pyStrip line)) = [a, b, c, d] ∧
      t.teller_id = a ∧ t.debit = clean_amount b ∧ t.kredit = clean_amount c ∧
      t.saldo = clean_amount d := by
  simp only [processLineEst] at h
  split at h
  · exact absurd h (by simp)
  · split at h
    · split at h
      · split at h
        · next a b c d heq =>
          rw [Option.some.injEq] at h
          exact ⟨a, b, c, d, heq, by rw [← h], by rw [← h], by rw [← h], by rw [← h]⟩
        · exact absurd h (by simp)
      · exact absurd h (by simp)
    · exact absurd h (by simp)

theorem processLineCms_some {line : String} {u : CmsTrx} (h : processLineCms line = some u) :
    ∃ a b c d, collectLastFour cmsNumTok (pySplit (pyStrip line)) = [a, b, c, d] ∧
      u.Debit = cmsAmt a ∧ u.Credit = cmsAmt b ∧ u.Saldo = clean_amount c := by
  simp only [processLineCms] at h
  split at h
  · exact absurd h (by simp)
  · split at h
    · split at h
      · split at h
        · next a b c d heq =>
          rw [Option.some.injEq] at h
          exact ⟨a, b, c, d, heq, by rw [← h], by rw [← h], by rw [← h]⟩
        · exact absurd h (by simp)
      · exact absurd h (by simp)
    · exact absurd h (by simp)

theorem sum_map_add {α : Type} (f g : α → ℚ) (l : List α) :
    (l.map f).sum + (l.map g).sum = (l.map (fun x => f x + g x)).sum := by
  induction l with
  | nil => simp
  | cons a t ih =>
    simp only [List.map_cons, List.sum_cons]
    rw [← ih]
    ring

theorem sum_map_filter_split {α : Type} (f : α → ℚ) (p : α → Bool) (l : List α) :
    ((l.filter p).map f).sum + ((l.filter (fun x => !(p x))).map f).sum = (l.map f).sum := by
  induction l with
  | nil => simp
  | cons a t ih =>
    rcases h : p a with - | -
    · simp [List.filter_cons, h]
      rw [← ih]
      ring
    · simp [List.filter_cons, h]
      rw [← ih]
      ring

theorem mem_uniqueFirstAux {α : Type} [DecidableEq α] :
    ∀ (l : List α) (seen : List α) (x : α),
      x ∈ uniqueFirstAux seen l ↔ x ∈ l ∧ x ∉ seen := by
  intro l
  induction l with
  | nil => intro seen x; simp [uniqueFirstAux]
  | cons a t ih =>
    intro seen x
    by_cases h : a ∈ seen
    · rw [show uniqueFirstAux seen (a :: t) = uniqueFirstAux seen t from by
        simp [uniqueFirstAux, h]]
      rw [ih]
      constructor
      · rintro ⟨hx, hn⟩
        exact ⟨List.mem_cons_of_mem _ hx, hn⟩
      · rintro ⟨hx, hn⟩
        rcases List.mem_cons.mp hx with rfl | hx
        · exact absurd h hn
        · exact ⟨hx, hn⟩
    · rw [show uniqueFirstAux seen (a :: t) = a :: uniqueFirstAux (a :: seen) t from by
        simp [uniqueFirstAux, h]]
      constructor
      · intro hx
        rcases List.mem_cons.mp hx with rfl | hx
        · exact ⟨List.mem_cons_self _ _, h⟩
        · have h2 := (ih (a :: seen) x).mp hx
          exact ⟨List.mem_cons_of_mem _ h2.1, fun hs => h2.2 (List.mem_cons_of_mem _ hs)⟩
      · rintro ⟨hx, hn⟩
        rcases List.mem_cons.mp hx with rfl | hx
        · exact List.mem_cons_self _ _
        · by_cases hxa : x = a
          · subst hxa
            exact List.mem_cons_self _ _
          · refine List.mem_cons_of_mem _ ((ih (a :: seen) x).mpr ⟨hx, ?_⟩)
            intro hs
            rcases List.mem_cons.mp hs with h3 | h3
            · exact hxa h3
            · exact hn h3

theorem uniqueFirstAux_nodup {α : Type} [DecidableEq α] :
    ∀ (l : List α) (seen : List α), (uniqueFirstAux seen l).Nodup := by
  intro l
  induction l with
  | nil => intro seen; simp [uniqueFirstAux]
  | cons a t ih =>
    intro seen
    by_cases h : a ∈ seen
    · rw [show uniqueFirstAux seen (a :: t) = uniqueFirstAux seen t from by
        simp [uniqueFirstAux, h]]
      exact ih seen
    · rw [show uniqueFirstAux seen (a :: t) = a :: uniqueFirstAux (a :: seen) t from by
        simp [uniqueFirstAux, h]]
      refine List.nodup_cons.mpr ⟨?_, ih (a :: seen)⟩
      intro hmem
      exact ((mem_uniqueFirstAux t (a :: seen) a).mp hmem).2 (List.mem_cons_self _ _)

theorem mem_uniqueFirst {α : Type} [DecidableEq α] {l : List α} {x : α} :
    x ∈ uniqueFirst l ↔ x ∈ l := by
  simp [uniqueFirst, mem_uniqueFirstAux]

theorem uniqueFirst_nodup {α : Type} [DecidableEq α] (l : List α) :
    (uniqueFirst l).Nodup :=
  uniqueFirstAux_nodup l []

theorem keys_partition_sum (f : PRow → ℚ) :
    ∀ (keys : List String) (rows : List PRow), keys.Nodup →
      (∀ r ∈ rows, ∃ p, r.partner_name = some p ∧ p ∈ keys) →
      (keys.map (fun p =>
          ((rows.filter (fun r => r.partner_name == some p)).map f).sum)).sum
        = (rows.map f).sum := by
  intro keys
  induction keys with
  | nil =>
    intro rows _ hcov
    have hrows : rows = [] := by
      cases rows with
      | nil => rfl
      | cons r t =>
        rcases hcov r (List.mem_cons_self _ _) with ⟨p, -, hp⟩
        exact absurd hp (List.not_mem_nil p)
    simp [hrows]
  | cons k ks ih =>
    intro rows hnd hcov
    have hk_not : k ∉ ks := (List.nodup_cons.mp hnd).1
    have hnd' : ks.Nodup := (List.nodup_cons.mp hnd).2
    have hcov' : ∀ r ∈ rows.filter (fun r => !(r.partner_name == some k)),
        ∃ p, r.partner_name = some p ∧ p ∈ ks := by
      intro r hr
      have hr2 := List.mem_filter.mp hr
      rcases hcov r hr2.1 with ⟨p, hp1, hp2⟩
      rcases List.mem_cons.mp hp2 with rfl | hp3
      · exfalso
        have hbeq : (r.partner_name == some p) = true := by rw [hp1]; exact beq_self_eq_true _
        have := hr2.2
        rw [hbeq] at this
        exact absurd this (by simp)
      · exact ⟨p, hp1, hp3⟩
    have hswap : ∀ p ∈ ks,
        rows.filter (fun r => r.partner_name == some p)
          = (rows.filter (fun r => !(r.partner_name == some k))).filter
              (fun r => r.partner_name == some p) := by
      intro p hp
      rw [List.filter_filter]
      apply List.filter_congr
      intro r _
      by_cases hcase : r.partner_name = some p
      · have h1 : (r.partner_name == some p) = true := by rw [hcase]; exact beq_self_eq_true _
        have hkne : (r.partner_name == some k) = false := by
          rw [hcase]
          refine beq_eq_false_iff_ne.mpr ?_
          intro heq
          rw [Option.some.injEq] at heq
          exact hk_not (heq ▸ hp)
        rw [h1, hkne]
        rfl
      · have h1 : (r.partner_name == some p) = false := beq_eq_false_iff_ne.mpr hcase
        rw [h1]
        rfl
    have hmapeq :
        (ks.map (fun p =>
            ((rows.filter (fun r => r.partner_name == some p)).map f).sum)).sum
          = (ks.map (fun p =>
              (((rows.filter (fun r => !(r.partner_name == some k))).filter
                  (fun r => r.partner_name == some p)).map f).sum)).sum := by
      congr 1
      apply List.map_congr_left
      intro p hp
      rw [hswap p hp]
    simp only [List.map_cons, List.sum_cons]
    rw [hmapeq, ih _ hnd' hcov',
      sum_map_filter_split f (fun r => r.partner_name == some k) rows]

theorem sum_insertionSort_map {α : Type} (r : α → α → Prop) [DecidableRel r]
    (g : α → ℚ) (l : List α) :
    ((List.insertionSort r l).map g).sum = (l.map g).sum :=
  ((List.perm_insertionSort r l).map g).sum_eq

/-- C6: for every non-empty set of transactions with non-null
partner_name, the partner summary table conserves volume — the sum of
its `Total_Credit` column plus the sum of its `Total_Debit` column
equals the sum of credit plus debit over the transactions whose
partner_name is non-null. -/
theorem c6_conservation (rows : List PRow)
    (hne : rows.filter (fun r => r.partner_name.isSome) ≠ []) :
    ((create_partner_summary_table rows).map (fun s => s.Total_Credit + s.Total_Debit)).sum
      = ((rows.filter (fun r => r.partner_name.isSome)).map (fun r => r.credit + r.debit)).sum := by
  have hcov : ∀ r ∈ rows.filter (fun r => r.partner_name.isSome),
      ∃ p, r.partner_name = some p ∧
        p ∈ uniqueFirst ((rows.filter (fun r => r.partner_name.isSome)).filterMap
          (fun r => r.partner_name)) := by
    intro r hr
    have hs := (List.mem_filter.mp hr).2
    rcases Option.isSome_iff_exists.mp hs with ⟨p, hp⟩
    refine ⟨p, hp, ?_⟩
    rw [mem_uniqueFirst]
    exact List.mem_filterMap.mpr ⟨r, hr, hp⟩
  have key := keys_partition_sum (fun r => r.credit + r.debit)
    (uniqueFirst ((rows.filter (fun r => r.partner_name.isSome)).filterMap
      (fun r => r.partner_name)))
    (rows.filter (fun r => r.partner_name.isSome))
    (uniqueFirst_nodup _) hcov
  simp only [create_partner_summary_table]
  rw [if_neg (by simpa [List.isEmpty_iff] using hne)]
  rw [sum_insertionSort_map, List.map_map]
  rw [← key]
  congr 1
  apply List.map_congr_left
  intro p _
  simp only [Function.comp, summaryRowFor]
  exact sum_map_add _ _ _

/-- Witness for C6 at a concrete three-transaction input. -/
theorem c6_conservation_witness :
    ((create_partner_summary_table
        [{ partner_name := some "A", debit := 100, credit := 0 },
         { partner_name := some "B", debit := 0, credit := 7 },
         { partner_name := none, debit := 5, credit := 5 },
         { partner_name := some "A", debit := 0, credit := 3 }]).map
        (fun s => s.Total_Credit + s.Total_Debit)).sum
      = (([{ partner_name := some "A", debit := 100, credit := 0 },
           { partner_name := some "B", debit := 0, credit := 7 },
           { partner_name := none, debit := 5, credit := 5 },
           { partner_name := some "A", debit := 0, credit := 3 }].filter
            (fun r : PRow => r.partner_name.isSome)).map
          (fun r => r.credit + r.debit)).sum :=
  c6_conservation _ (by decide)

/-- C9: the direction derivation tests debit first — `DEBIT` whenever
`debit > 0` (even if credit is also positive), `CREDIT` exactly when
debit is not positive and credit is, `UNKNOWN` exactly when neither is
positive; it is total and deterministic on all pairs. -/
theorem c9_transaction_type (d c : ℚ) :
    (transaction_type d c = "DEBIT" ↔ 0 < d) ∧
    (transaction_type d c = "CREDIT" ↔ (¬0 < d ∧ 0 < c)) ∧
    (transaction_type d c = "UNKNOWN" ↔ (¬0 < d ∧ ¬0 < c)) := by
  unfold transaction_type
  by_cases hd : 0 < d
  · simp only [if_pos hd]
    refine ⟨by simpa using hd, ?_, ?_⟩
    · constructor
      · intro h; exact absurd h (by decide)
      · rintro ⟨h, -⟩; exact absurd hd h
    · constructor
      · intro h; exact absurd h (by decide)
      · rintro ⟨h, -⟩; exact absurd hd h
  · by_cases hc : 0 < c
    · simp only [if_neg hd, if_pos hc]
      refine ⟨?_, by simp [hd, hc], ?_⟩
      · constructor
        · intro h; exact absurd h (by decide)
        · intro h; exact absurd h hd
      · constructor
        · intro h; exact absurd h (by decide)
        · rintro ⟨-, h⟩; exact absurd hc h
    · simp only [if_neg hd, if_neg hc]
      refine ⟨?_, ?_, by simp [hd, hc]⟩
      · constructor
        · intro h; exact absurd h (by decide)
        · intro h; exact absurd h hd
      · constructor
        · intro h; exact absurd h (by decide)
        · rintro ⟨-, h⟩; exact absurd h hc

/-- C2 (amended): every record emitted by either fine-grained parser
comes from a line on which the backwards scan collected exactly four
numeric-shaped tokens; `extract_transactions` assigns those tokens, in
left-to-right order, as teller id, debit, credit, balance, while
`extract_cms_transactions` assigns them as debit, credit, balance,
teller id (the teller id is dropped). -/
theorem c2_amended (text : String) :
    List.Forall (fun t : EstTrx => ∃ line, line ∈ pyLines text ∧
      ∃ a b c d, collectLastFour estNumTok (pySplit (pyStrip line)) = [a, b, c, d] ∧
        t.teller_id = a ∧ t.debit = clean_amount b ∧ t.kredit = clean_amount c ∧
        t.saldo = clean_amount d) (extract_transactions text)
    ∧ List.Forall (fun u : CmsTrx => ∃ line, line ∈ pyLines text ∧
      ∃ a b c d, collectLastFour cmsNumTok (pySplit (pyStrip line)) = [a, b, c, d] ∧
        u.Debit = cmsAmt a ∧ u.Credit = cmsAmt b ∧ u.Saldo = clean_amount c)
      (extract_cms_transactions text) := by
  constructor
  · rw [List.forall_iff_forall_mem]
    intro t ht
    rw [extract_transactions_eq_filterMap] at ht
    rcases List.mem_filterMap.mp ht with ⟨line, hline, hproc⟩
    rcases processLineEst_some hproc with ⟨a, b, c, d, hcol, h1, h2, h3, h4⟩
    exact ⟨line, hline, a, b, c, d, hcol, h1, h2, h3, h4⟩
  · rw [List.forall_iff_forall_mem]
    intro u hu
    rw [extract_cms_transactions_eq_filterMap] at hu
    rcases List.mem_filterMap.mp hu with ⟨line, hline, hproc⟩
    rcases processLineCms_some hproc with ⟨a, b, c, d, hcol, h1, h2, h3⟩
    exact ⟨line, hline, a, b, c, d, hcol, h1, h2, h3⟩

theorem clean_amount_zero_lit : clean_amount "0.00" = 0 := by
  have h : clean_amount "0.00"
      = ((digitsVal ['0'] : ℕ) : ℚ) + ((digitsVal ['0', '0'] : ℕ) : ℚ) / (10 ^ 2 : ℚ) := rfl
  rw [h, show digitsVal ['0'] = 0 from by decide, show digitsVal ['0', '0'] = 0 from by decide]
  norm_num

theorem clean_amount_100 : clean_amount "100.00" = 100 := by
  have h : clean_amount "100.00"
      = ((digitsVal ['1', '0', '0'] : ℕ) : ℚ) + ((digitsVal ['0', '0'] : ℕ) : ℚ) / (10 ^ 2 : ℚ) := rfl
  rw [h, show digitsVal ['1', '0', '0'] = 100 from by decide,
    show digitsVal ['0', '0'] = 0 from by decide]
  norm_num

theorem clean_amount_200 : clean_amount "200.00" = 200 := by
  have h : clean_amount "200.00"
      = ((digitsVal ['2', '0', '0'] : ℕ) : ℚ) + ((digitsVal ['0', '0'] : ℕ) : ℚ) / (10 ^ 2 : ℚ) := rfl
  rw [h, show digitsVal ['2', '0', '0'] = 200 from by decide,
    show digitsVal ['0', '0'] = 0 from by decide]
  norm_num

/-- C2 counterexample: on a CMS anchor line whose four collected tokens
are `100.00 200.00 300.00 1234567`, the emitted record's `Debit` is the
FIRST collected token's amount (`100.00`), not the second's as the
claimed teller/debit/credit/balance assignment would require. -/
theorem c2_counterexample :
    collectLastFour cmsNumTok
        (pySplit "01/03/24 10:15:00 TRF KE X 100.00 200.00 300.00 1234567")
      = ["100.00", "200.00", "300.00", "1234567"]
    ∧ (extract_cms_transactions
          "01/03/24 10:15:00 TRF KE X 100.00 200.00 300.00 1234567").map
        (fun u => (u.Debit, u.Credit, u.Saldo))
      = [(cmsAmt "100.00", cmsAmt "200.00", clean_amount "300.00")]
    ∧ cmsAmt "100.00" ≠ cmsAmt "200.00" := by
  refine ⟨by decide, rfl, ?_⟩
  rw [show cmsAmt "100.00" = clean_amount "100.00" from rfl,
    show cmsAmt "200.00" = clean_amount "200.00" from rfl,
    clean_amount_100, clean_amount_200]
  norm_num

/-- C5 (amended): both transaction parsers always emit non-negative
debit and credit amounts; the at-most-one-non-zero direction invariant
is not enforced by the parsers but holds whenever the input is well
formed, i.e. whenever on every EMITTED (record-producing) line the
collected debit or credit token is the literal `"0.00"` (how the
source format encodes direction) — lines that produce no record, such
as a four-amount balance-summary row, are unconstrained. -/
theorem c5_amended (text : String) :
    List.Forall (fun t : EstTrx => 0 ≤ t.debit ∧ 0 ≤ t.kredit) (extract_transactions text)
    ∧ List.Forall (fun u : CmsTrx => 0 ≤ u.Debit ∧ 0 ≤ u.Credit) (extract_cms_transactions text)
    ∧ ((pyLines text).all estLineZeroOk = true →
        List.Forall (fun t : EstTrx => t.debit = 0 ∨ t.kredit = 0) (extract_transactions text))
    ∧ ((pyLines text).all cmsLineZeroOk = true →
        List.Forall (fun u : CmsTrx => u.Debit = 0 ∨ u.Credit = 0)
          (extract_cms_transactions text)) := by
  refine ⟨?_, ?_, ?_, ?_⟩
  · rw [List.forall_iff_forall_mem]
    intro t ht
    rw [extract_transactions_eq_filterMap] at ht
    rcases List.mem_filterMap.mp ht with ⟨line, hline, hproc⟩
    rcases processLineEst_some hproc with ⟨a, b, c, d, hcol, -, h2, h3, -⟩
    have hb : b ∈ collectLastFour estNumTok (pySplit (pyStrip line)) := by rw [hcol]; simp
    have hc : c ∈ collectLastFour estNumTok (pySplit (pyStrip line)) := by rw [hcol]; simp
    exact ⟨h2 ▸ clean_amount_nonneg (estNumTok_no_minus (collectLastFour_pred hb)),
      h3 ▸ clean_amount_nonneg (estNumTok_no_minus (collectLastFour_pred hc))⟩
  · rw [List.forall_iff_forall_mem]
    intro u hu
    rw [extract_cms_transactions_eq_filterMap] at hu
    rcases List.mem_filterMap.mp hu with ⟨line, hline, hproc⟩
    rcases processLineCms_some hproc with ⟨a, b, c, d, hcol, h1, h2, -⟩
    have ha : a ∈ collectLastFour cmsNumTok (pySplit (pyStrip line)) := by rw [hcol]; simp
    have hb : b ∈ collectLastFour cmsNumTok (pySplit (pyStrip line)) := by rw [hcol]; simp
    exact ⟨h1 ▸ cmsAmt_nonneg (cmsNumTok_no_minus (collectLastFour_pred ha)),
      h2 ▸ cmsAmt_nonneg (cmsNumTok_no_minus (collectLastFour_pred hb))⟩
  · intro hall
    rw [List.forall_iff_forall_mem]
    intro t ht
    rw [extract_transactions_eq_filterMap] at ht
    rcases List.mem_filterMap.mp ht with ⟨line, hline, hproc⟩
    rcases processLineEst_some hproc with ⟨a, b, c, d, hcol, -, h2, h3, -⟩
    have hz := List.all_eq_true.mp hall line hline
    unfold estLineZeroOk at hz
    rw [hproc] at hz
    rw [hcol] at hz
    have hz2 : (b == "0.00" || c == "0.00") = true := hz
    rcases Bool.or_eq_true_iff.mp hz2 with hzb | hzc
    · left
      rw [h2, show b = "0.00" from by simpa using hzb]
      exact clean_amount_zero_lit
    · right
      rw [h3, show c = "0.00" from by simpa using hzc]
      exact clean_amount_zero_lit
  · intro hall
    rw [List.forall_iff_forall_mem]
    intro u hu
    rw [extract_cms_transactions_eq_filterMap] at hu
    rcases List.mem_filterMap.mp hu with ⟨line, hline, hproc⟩
    rcases processLineCms_some hproc with ⟨a, b, c, d, hcol, h1, h2, -⟩
    have hz := List.all_eq_true.mp hall line hline
    unfold cmsLineZeroOk at hz
    rw [hproc] at hz
    rw [hcol] at hz
    have hz2 : (a == "0.00" || b == "0.00") = true := hz
    rcases Bool.or_eq_true_iff.mp hz2 with hza | hzb
    · left
      rw [h1, show a = "0.00" from by simpa using hza]
      rfl
    · right
      rw [h2, show b = "0.00" from by simpa using hzb]
      rfl

/-- Witness for C5 at a two-line text: a non-anchor balance-summary row
whose four collected amount tokens are all non-zero (it emits no record,
so it is unconstrained) followed by the fine-grained scenario line,
whose debit token is `"0.00"`. -/
theorem c5_amended_witness :
    List.Forall (fun t : EstTrx => 0 ≤ t.debit ∧ 0 ≤ t.kredit)
      (extract_transactions
        "1,000.00 50.00 70.00 1,020.00\n01/03/24 10:15:00 TRANSFER KE BUDI SANTOSA 1234567 0.00 500000.00 1500000.00")
    ∧ List.Forall (fun u : CmsTrx => 0 ≤ u.Debit ∧ 0 ≤ u.Credit)
      (extract_cms_transactions
        "1,000.00 50.00 70.00 1,020.00\n01/03/24 10:15:00 TRANSFER KE BUDI SANTOSA 1234567 0.00 500000.00 1500000.00")
    ∧ List.Forall (fun t : EstTrx => t.debit = 0 ∨ t.kredit = 0)
      (extract_transactions
        "1,000.00 50.00 70.00 1,020.00\n01/03/24 10:15:00 TRANSFER KE BUDI SANTOSA 1234567 0.00 500000.00 1500000.00")
    ∧ List.Forall (fun u : CmsTrx => u.Debit = 0 ∨ u.Credit = 0)
      (extract_cms_transactions
        "1,000.00 50.00 70.00 1,020.00\n01/03/24 10:15:00 TRANSFER KE BUDI SANTOSA 1234567 0.00 500000.00 1500000.00") :=
  ⟨(c5_amended _).1, (c5_amended _).2.1,
   (c5_amended _).2.2.1 (by decide), (c5_amended _).2.2.2 (by decide)⟩

/-- C5 counterexample: a line with two positive amount tokens makes
`extract_transactions` emit a record whose debit AND credit are both
non-zero, so the invariant does not hold for every input text. -/
theorem c5_counterexample :
    (extract_transactions "01/03/24 10:15:00 TRF 1234567 100.00 200.00 300.00").map
        (fun t => (t.debit, t.kredit))
      = [(clean_amount "100.00", clean_amount "200.00")]
    ∧ clean_amount "100.00" ≠ 0 ∧ clean_amount "200.00" ≠ 0 := by
  refine ⟨rfl, ?_, ?_⟩
  · rw [clean_amount_100]; norm_num
  · rw [clean_amount_200]; norm_num

/-- C4 (code bug): in the streamlit variant the skip keyword `"Fee"` is
compared, case-sensitively, against the UPPERCASED description, so it
can never match: a description containing `FEE` (and no other skip
keyword) is not excluded and the generic fallback returns a partner
name.  The src/app.py variant, whose list carries `"FEE"`, excludes the
same description, and genuinely administrative keywords are excluded by
both. -/
theorem c4_fee_eval :
    extract_partner_name_bri_s "MONTHLY FEE JOHN DOE" = some "MONTHLY FEE JOHN DOE"
    ∧ extract_partner_name_bri_a "MONTHLY FEE JOHN DOE" = none
    ∧ extract_partner_name_bri_s "BIAYA ADM" = none
    ∧ extract_partner_name_bri_a "PAJAK BUNGA" = none := by
  exact ⟨by decide, by decide, by decide, by decide⟩

/-- C1 (code bug): `extract_cms_account_info` of bri_streamlit_app.py
raises `NameError` on every input — its first statement calls
`clean_statement_lines`, a name bound nowhere in the module — while the
other core parsing functions return best-effort empty/zero results on
malformed input without raising. -/
theorem c1_raise_eval :
    (∀ text : String, extract_cms_account_info_s text = Except.error PyError.nameError)
    ∧ extract_cms_transactions "no transactions here %%@@" = []
    ∧ extract_transactions "no transactions here %%@@" = []
    ∧ extract_partner_name_bri_s "@@ 12" = none
    ∧ clean_amount "12a..b" = 0 := by
  exact ⟨fun text => rfl, by decide, by decide, by decide, by decide⟩

/-- C3 counterexample: `clean_amount` does NOT apply the European
disambiguation — `clean_amount "1.234,56"` strips the comma first and
then, seeing more than one period group, strips the periods too,
yielding `123456.0` instead of `1234.56`. -/
theorem c3_counterexample :
    clean_amount "1.234,56" = 123456 ∧ (123456 : ℚ) ≠ 1234 + 56 / 100 := by
  constructor
  · have h : clean_amount "1.234,56"
        = ((digitsVal ['1', '2', '3', '4', '5', '6'] : ℕ) : ℚ) := rfl
    rw [h, show digitsVal ['1', '2', '3', '4', '5', '6'] = 123456 from by decide]
    norm_num
  · norm_num

theorem pyIsSpace_false_of_digit {c : Char} (h : c.isDigit = true) : pyIsSpace c = false := by
  rcases hsp : pyIsSpace c with - | -
  · rfl
  · exfalso
    simp only [pyIsSpace, Bool.or_eq_true_iff, beq_iff_eq] at hsp
    rcases hsp with (((((h1 | h1) | h1) | h1) | h1) | h1) <;>
      (subst h1; exact absurd h (by decide))

theorem dropWhile_eq_self_of_head {l : List Char} (h : ∀ c ∈ l, pyIsSpace c = false) :
    l.dropWhile pyIsSpace = l := by
  cases l with
  | nil => rfl
  | cons c t =>
    rw [List.dropWhile_cons, h c (List.mem_cons_self _ _)]
    simp

theorem stripChars_eq_self {l : List Char} (h : ∀ c ∈ l, pyIsSpace c = false) :
    stripChars l = l := by
  unfold stripChars
  rw [dropWhile_eq_self_of_head h]
  rw [dropWhile_eq_self_of_head (fun c hc => h c (List.mem_reverse.mp hc))]
  exact List.reverse_reverse l

theorem pyStrip_eq_self {s : String} (h : ∀ c ∈ s.data, pyIsSpace c = false) :
    pyStrip s = s := by
  unfold pyStrip
  rw [stripChars_eq_self h]

theorem rlastIdx_not_mem {c : Char} {l : List Char} (h : c ∉ l) : rlastIdx c l = none := by
  induction l with
  | nil => rfl
  | cons a t ih =>
    have hat : c ∉ t := fun hm => h (List.mem_cons_of_mem _ hm)
    have hac : ¬(a = c) := fun he => h (he ▸ List.mem_cons_self _ _)
    simp [rlastIdx, ih hat, beq_eq_false_iff_ne.mpr hac]

theorem rlastIdx_lt_length {c : Char} {l : List Char} :
    ∀ {i : Nat}, rlastIdx c l = some i → i < l.length := by
  induction l with
  | nil => intro i h; exact absurd h (by simp [rlastIdx])
  | cons a t ih =>
    intro i h
    rcases ht : rlastIdx c t with - | j <;> simp only [rlastIdx, ht] at h
    · split at h
      · rw [Option.some.injEq] at h
        simp [← h]
      · exact absurd h (by simp)
    · rw [Option.some.injEq] at h
      have := ih ht
      simp only [List.length_cons, ← h]
      omega

theorem rlastIdx_append_sep {l1 l2 : List Char} {c : Char} (h1 : c ∉ l1) (h2 : c ∉ l2) :
    rlastIdx c (l1 ++ c :: l2) = some l1.length := by
  induction l1 with
  | nil =>
    simp [rlastIdx, rlastIdx_not_mem h2]
  | cons a t ih =>
    have hat : c ∉ t := fun hm => h1 (List.mem_cons_of_mem _ hm)
    simp [rlastIdx, ih hat]

theorem rlastIdx_append_right_none {c : Char} {l2 : List Char} (h : c ∉ l2) :
    ∀ l1, rlastIdx c (l1 ++ l2) = rlastIdx c l1 := by
  intro l1
  induction l1 with
  | nil => simp [rlastIdx, rlastIdx_not_mem h]
  | cons a t ih => simp [rlastIdx, ih]

theorem takeWhile_append_eq {p : Char → Bool} {l1 l2 : List Char}
    (h1 : ∀ c ∈ l1, p c = true) (h2 : l2.takeWhile p = []) :
    (l1 ++ l2).takeWhile p = l1 := by
  induction l1 with
  | nil => simpa using h2
  | cons a t ih =>
    rw [List.cons_append, List.takeWhile_cons, h1 a (List.mem_cons_self _ _)]
    simp only [if_true]
    rw [ih (fun c hc => h1 c (List.mem_cons_of_mem _ hc))]

theorem pyFloatD_int_frac {l1 l2 : List Char}
    (h1 : ∀ c ∈ l1, c.isDigit = true) (h2 : ∀ c ∈ l2, c.isDigit = true)
    (hne : l2 ≠ []) :
    pyFloatD ⟨l1 ++ '.' :: l2⟩
      = (digitsVal l1 : ℚ) + (digitsVal l2 : ℚ) / (10 ^ l2.length : ℚ) := by
  have hnospace : ∀ c ∈ (l1 ++ '.' :: l2), pyIsSpace c = false := by
    intro c hc
    rcases List.mem_append.mp hc with hc | hc
    · exact pyIsSpace_false_of_digit (h1 c hc)
    · rcases List.mem_cons.mp hc with rfl | hc
      · decide
      · exact pyIsSpace_false_of_digit (h2 c hc)
  have hnominus : '-' ∉ l1 ++ '.' :: l2 := by
    intro hm
    rcases List.mem_append.mp hm with hm | hm
    · exact absurd (h1 '-' hm) (by decide)
    · rcases List.mem_cons.mp hm with h3 | hm
      · exact absurd h3 (by decide)
      · exact absurd (h2 '-' hm) (by decide)
  have hnoplus : '+' ∉ l1 ++ '.' :: l2 := by
    intro hm
    rcases List.mem_append.mp hm with hm | hm
    · exact absurd (h1 '+' hm) (by decide)
    · rcases List.mem_cons.mp hm with h3 | hm
      · exact absurd h3 (by decide)
      · exact absurd (h2 '+' hm) (by decide)
  unfold pyFloatD pyFloatOpt
  rw [show (String.mk (l1 ++ '.' :: l2)).data = l1 ++ '.' :: l2 from rfl]
  rw [stripChars_eq_self hnospace]
  split
  · next rest heq => exact absurd (heq ▸ List.mem_cons_self '-' rest) hnominus
  · next rest heq => exact absurd (heq ▸ List.mem_cons_self '+' rest) hnoplus
  · simp only [pyFloatCore]
    have htake : (l1 ++ '.' :: l2).takeWhile Char.isDigit = l1 := by
      apply takeWhile_append_eq h1
      rw [List.takeWhile_cons]
      simp
    rw [htake, List.drop_left]
    split
    · next heq => exact absurd heq (by simp)
    · next rest2 heq =>
      rw [List.cons.injEq] at heq
      rw [← heq.2]
      have hfrac : l2.takeWhile Char.isDigit = l2 := List.takeWhile_eq_self_iff.mpr h2
      rw [hfrac]
      rw [List.drop_length]
      rw [if_neg (by simp)]
      rw [if_neg (by
        simp only [Bool.and_eq_true, List.isEmpty_iff]
        rintro ⟨-, h⟩
        exact hne h)]
      simp
    · next hx1 hx2 => exact absurd rfl (hx2 l2)

/-- C3 (amended): the European-style disambiguation is applied by
`parse_amount`, the balance-summary normalizer, and not by
`clean_amount`: for every digits-and-periods string `X` followed by a
comma and a two-digit fraction `b` — so the comma is to the right of
every period — `parse_amount` treats the periods as thousands
separators and the comma as the decimal point.  In particular
`parse_amount "1.234,56" = 1234.56`. -/
theorem c3_amended (X b : String)
    (hX : ∀ c ∈ X.data, (c.isDigit || c == '.') = true)
    (hb : ∀ c ∈ b.data, c.isDigit = true)
    (hb2 : b.data.length = 2) :
    parse_amount (X ++ "," ++ b)
      = (digitsVal (X.data.filter Char.isDigit) : ℚ) + (digitsVal b.data : ℚ) / 100 := by
  have hdata : (X ++ "," ++ b).data = X.data ++ ',' :: b.data := by
    rw [String.data_append, String.data_append]
    simp
  have hXdot : ∀ c ∈ X.data, c.isDigit = true ∨ c = '.' := by
    intro c hc
    rcases Bool.or_eq_true_iff.mp (hX c hc) with h | h
    · exact Or.inl h
    · exact Or.inr (by simpa using h)
  have hnospace : ∀ c ∈ (X ++ "," ++ b).data, pyIsSpace c = false := by
    rw [hdata]
    intro c hc
    rcases List.mem_append.mp hc with hc | hc
    · rcases hXdot c hc with h | rfl
      · exact pyIsSpace_false_of_digit h
      · decide
    · rcases List.mem_cons.mp hc with rfl | hc
      · decide
      · exact pyIsSpace_false_of_digit (hb c hc)
  have hcommaX : ',' ∉ X.data := by
    intro hm
    rcases hXdot ',' hm with h | h
    · exact absurd h (by decide)
    · exact absurd h (by decide)
  have hcommab : ',' ∉ b.data := fun hm => absurd (hb ',' hm) (by decide)
  have hdotb : '.' ∉ b.data := fun hm => absurd (hb '.' hm) (by decide)
  have hcontains : containsChar ',' (X ++ "," ++ b) = true := by
    simp only [containsChar, List.any_eq_true]
    exact ⟨',', by rw [hdata]; exact List.mem_append_right _ (List.mem_cons_self _ _), by simp⟩
  have hrc : pyRfind ',' (X ++ "," ++ b) = (X.data.length : Int) := by
    simp only [pyRfind]
    rw [hdata, rlastIdx_append_sep hcommaX hcommab]
  have hrd : pyRfind ',' (X ++ "," ++ b) > pyRfind '.' (X ++ "," ++ b) := by
    rw [hrc]
    simp only [pyRfind, hdata]
    have hnd : '.' ∉ (',' :: b.data) := by
      intro hm
      rcases List.mem_cons.mp hm with h | h
      · exact absurd h (by decide)
      · exact hdotb h
    rw [rlastIdx_append_right_none hnd X.data]
    rcases hdX : rlastIdx '.' X.data with - | i
    · simp only [hdX]
      omega
    · have := rlastIdx_lt_length hdX
      simp only [hdX]
      omega
  have hfX : X.data.filter (fun c => !(c == '.')) = X.data.filter Char.isDigit := by
    apply List.filter_congr
    intro c hc
    rcases hXdot c hc with h | rfl
    · have hne : (c == '.') = false :=
        beq_eq_false_iff_ne.mpr (fun he => absurd (he ▸ h) (by decide))
      rw [hne, h]
      rfl
    · simp
  have hdigits_fX : ∀ c ∈ X.data.filter Char.isDigit, c.isDigit = true := by
    intro c hc
    exact (List.mem_filter.mp hc).2
  have hmapX : (X.data.filter Char.isDigit).map (fun c => if c == ',' then '.' else c)
      = X.data.filter Char.isDigit := by
    have hid : ∀ c ∈ X.data.filter Char.isDigit, (if c == ',' then '.' else c) = id c := by
      intro c hc
      have hcd := hdigits_fX c hc
      rw [if_neg (fun he => absurd ((beq_iff_eq.mp he) ▸ hcd) (by decide))]
      rfl
    rw [List.map_congr_left hid, List.map_id]
  have hmapb : b.data.map (fun c => if c == ',' then '.' else c) = b.data := by
    have hid : ∀ c ∈ b.data, (if c == ',' then '.' else c) = id c := by
      intro c hc
      rw [if_neg (fun he => absurd ((beq_iff_eq.mp he) ▸ hb c hc) (by decide))]
      rfl
    rw [List.map_congr_left hid, List.map_id]
  have hfb : b.data.filter (fun c => !(c == '.')) = b.data :=
    List.filter_eq_self.mpr (fun c hc => by
      have hcd := hb c hc
      have hne : (c == '.') = false :=
        beq_eq_false_iff_ne.mpr (fun he => absurd (he ▸ hcd) (by decide))
      rw [hne]
      rfl)
  have hlist : (((X ++ "," ++ b).data.filter (fun c => !(c == '.'))).map
        (fun c => if c == ',' then '.' else c))
      = (X.data.filter Char.isDigit) ++ '.' :: b.data := by
    rw [hdata, List.filter_append, List.filter_cons]
    rw [if_pos (by decide : (!((',' : Char) == '.')) = true)]
    rw [hfb, hfX, List.map_append, List.map_cons, hmapX, hmapb]
    simp
  have hbne : b.data ≠ [] := by
    intro h
    rw [h] at hb2
    simp at hb2
  simp only [parse_amount]
  rw [pyStrip_eq_self hnospace]
  rw [if_pos (by rw [hcontains]; simpa using hrd)]
  rw [hlist]
  rw [pyFloatD_int_frac hdigits_fX hb hbne, hb2]
  norm_num

/-- Witness for C3 at the spec's own example: `parse_amount "1.234,56"`
is `1234.56`. -/
theorem c3_amended_witness : parse_amount "1.234,56" = 1234 + 56 / 100 := by
  have h := c3_amended "1.234" "56" (by decide) (by decide) (by decide)
  rw [show ("1.234" ++ "," ++ "56" : String) = "1.234,56" from rfl] at h
  rw [h, show digitsVal ("1.234".data.filter Char.isDigit) = 1234 from by decide,
    show digitsVal "56".data = 56 from by decide]
  norm_num

/-- C7 counterexample: the streamlit orchestrator picks the parser
family by filename alone — for a file id containing `"2025"` and a text
whose e-statement parse is empty, it returns the empty e-statement
result even though the alternate (CMS) family yields a non-empty
result. -/
theorem c7_counterexample :
    parse_bri_statement_s_trx "01/03/24 10:15:00 1234567 0.00 500000.00 1500000.00" "rek_2025"
      = Except.ok (Table.est [])
    ∧ extract_cms_transactions "01/03/24 10:15:00 1234567 0.00 500000.00 1500000.00" ≠ [] := by
  exact ⟨rfl, by decide⟩

/-- C7 (amended): the src/app.py orchestrator implements run-and-check
fallback — when the first-chosen e-statement family yields zero
transactions the CMS family's result is returned — and the family
actually used is recoverable from the returned table's column shape via
`detect_bri_format` whenever that table is non-empty; no separate
format-tag field is emitted, and the streamlit orchestrator performs no
fallback at all. -/
theorem c7_amended (text : String) :
    (extract_transactions text = [] →
      parse_bri_statement_a_trx text = Table.cms (extract_cms_transactions text)
      ∧ (extract_cms_transactions text ≠ [] →
          detect_bri_format (parse_bri_statement_a_trx text) = "CMS"))
    ∧ (extract_transactions text ≠ [] →
        parse_bri_statement_a_trx text = Table.est (extract_transactions text)
        ∧ detect_bri_format (parse_bri_statement_a_trx text) = "E_STATEMENT") := by
  constructor
  · intro hempty
    have hTrx : parse_bri_statement_a_trx text = Table.cms (extract_cms_transactions text) := by
      simp only [parse_bri_statement_a_trx]
      rw [if_pos (by simp [List.isEmpty_iff, hempty])]
    refine ⟨hTrx, ?_⟩
    intro hne
    rw [hTrx]
    simp only [detect_bri_format]
    rw [if_neg (by simp [List.isEmpty_iff, hne])]
  · intro hne
    have hTrx : parse_bri_statement_a_trx text = Table.est (extract_transactions text) := by
      simp only [parse_bri_statement_a_trx]
      rw [if_neg (by simp [List.isEmpty_iff, hne])]
    refine ⟨hTrx, ?_⟩
    rw [hTrx]
    simp only [detect_bri_format]
    rw [if_neg (by simp [List.isEmpty_iff, hne])]

/-- Witness for C7: on a 6-token CMS line the e-statement family is
empty, the orchestrator falls back to the CMS result, and the returned
table detects as `"CMS"`. -/
theorem c7_amended_witness :
    parse_bri_statement_a_trx "01/03/24 10:15:00 1234567 0.00 500000.00 1500000.00"
      = Table.cms (extract_cms_transactions "01/03/24 10:15:00 1234567 0.00 500000.00 1500000.00")
    ∧ detect_bri_format
        (parse_bri_statement_a_trx "01/03/24 10:15:00 1234567 0.00 500000.00 1500000.00")
      = "CMS" := by
  have h := (c7_amended "01/03/24 10:15:00 1234567 0.00 500000.00 1500000.00").1 (by decide)
  exact ⟨h.1, h.2 (by decide)⟩

/-- C10 counterexample: on a non-empty frame whose columns match neither
format, `analyze_bri_partners_unified` returns the input frame itself —
NOT an enriched frame with `partner_name`/`transaction_type`/`amount`
columns added — together with an empty second result. -/
theorem c10_counterexample :
    analyze_bri_partners_unified_s (Table.other [()])
      = (AnalyzeFirst.table (Table.other [()]), [])
    ∧ (analyze_bri_partners_unified_s (Table.other [()])).1
        ≠ AnalyzeFirst.enriched (enrichRows extract_partner_name_bri_s (Table.other [()])) := by
  exact ⟨rfl, by decide⟩

/-- C10 (amended): for a non-empty input frame, the first result of
`analyze_bri_partners_unified` is the raw input frame when the columns
match neither format, the enriched per-transaction frame when the
format is known but no transaction receives a partner, and the
per-(partner, direction) aggregate exactly when at least one
transaction is attributed (with `create_partner_summary_table` of the
enriched frame as the second result). -/
theorem c10_amended (pf : String → Option String) (t : Table) (hne : t.isEmpty = false) :
    (detect_bri_format t = "UNKNOWN" → analyze_core pf t = (AnalyzeFirst.table t, []))
    ∧ (detect_bri_format t ≠ "UNKNOWN" →
        (enrichRows pf t).filter (fun r => r.partner_name.isSome) = [] →
        analyze_core pf t = (AnalyzeFirst.enriched (enrichRows pf t), []))
    ∧ (detect_bri_format t ≠ "UNKNOWN" →
        (enrichRows pf t).filter (fun r => r.partner_name.isSome) ≠ [] →
        analyze_core pf t
          = (AnalyzeFirst.grouped (partnerSummaryRows
                ((enrichRows pf t).filter (fun r => r.partner_name.isSome))),
             create_partner_summary_table ((enrichRows pf t).map EnrichedRow.toPRow))) := by
  have hniceE : ¬(t.isEmpty = true) := by
    rw [hne]
    exact Bool.false_ne_true
  refine ⟨?_, ?_, ?_⟩
  · intro hu
    simp only [analyze_core]
    rw [if_neg hniceE, if_pos (by rw [beq_iff_eq]; exact hu)]
  · intro hu hfil
    simp only [analyze_core]
    rw [if_neg hniceE, if_neg (by simp only [beq_iff_eq]; exact hu),
      if_pos (by simp [List.isEmpty_iff, hfil])]
  · intro hu hfil
    simp only [analyze_core]
    rw [if_neg hniceE, if_neg (by simp only [beq_iff_eq]; exact hu),
      if_neg (by simp [List.isEmpty_iff, hfil])]

/-- Witness for C10: the three cases at concrete inputs — an
unknown-column frame, a CMS frame whose only description is the
excluded `"BIAYA ADM"`, and a CMS frame whose description `"PAYROLL
GAJI"` is attributed. -/
theorem c10_amended_witness :
    analyze_core extract_partner_name_bri_s (Table.other [()])
      = (AnalyzeFirst.table (Table.other [()]), [])
    ∧ analyze_core extract_partner_name_bri_s
        (Table.cms [{ Date := "01/03/24", Remark := "BIAYA ADM", Debit := 0,
                      Credit := 100, Saldo := 100 }])
      = (AnalyzeFirst.enriched
          (enrichRows extract_partner_name_bri_s
            (Table.cms [{ Date := "01/03/24", Remark := "BIAYA ADM", Debit := 0,
                          Credit := 100, Saldo := 100 }])), [])
    ∧ analyze_core extract_partner_name_bri_s
        (Table.cms [{ Date := "01/03/24", Remark := "PAYROLL GAJI", Debit := 0,
                      Credit := 100, Saldo := 100 }])
      = (AnalyzeFirst.grouped (partnerSummaryRows
            ((enrichRows extract_partner_name_bri_s
              (Table.cms [{ Date := "01/03/24", Remark := "PAYROLL GAJI", Debit := 0,
                            Credit := 100, Saldo := 100 }])).filter
              (fun r => r.partner_name.isSome))),
         create_partner_summary_table
           ((enrichRows extract_partner_name_bri_s
              (Table.cms [{ Date := "01/03/24", Remark := "PAYROLL GAJI", Debit := 0,
                            Credit := 100, Saldo := 100 }])).map EnrichedRow.toPRow)) :=
  ⟨(c10_amended extract_partner_name_bri_s _ (by decide)).1 (by decide),
   (c10_amended extract_partner_name_bri_s _ (by decide)).2.1 (by decide) (by decide),
   (c10_amended extract_partner_name_bri_s _ (by decide)).2.2 (by decide) (by decide)⟩

theorem char_eq_of_toNat_eq {a b : Char} (h : a.toNat = b.toNat) : a = b :=
  Char.ext (UInt32.ext h)

theorem charLtB_trans {a b c : Char} (h1 : charLtB a b = true) (h2 : charLtB b c = true) :
    charLtB a c = true := by
  simp only [charLtB, Nat.blt_eq] at h1 h2 ⊢
  omega

theorem strLeAux_refl : ∀ (x : List Char), strLeAux x x = true := by
  intro x
  induction x with
  | nil => rfl
  | cons a s ih => simp [strLeAux, ih]

theorem strLe_refl (x : String) : strLe x x = true := strLeAux_refl x.data

theorem strLeAux_total : ∀ (x y : List Char), strLeAux x y = true ∨ strLeAux y x = true := by
  intro x
  induction x with
  | nil => intro y; left; rfl
  | cons a s ih =>
    intro y
    cases y with
    | nil => right; rfl
    | cons b t =>
      by_cases hab : a = b
      · subst hab
        rcases ih t with h | h
        · left; simpa [strLeAux] using h
        · right; simpa [strLeAux] using h
      · have hne : a.toNat ≠ b.toNat := fun h => hab (char_eq_of_toNat_eq h)
        rcases Nat.lt_or_ge a.toNat b.toNat with h | h
        · left
          simp [strLeAux, beq_eq_false_iff_ne.mpr hab, charLtB, Nat.blt_eq, h]
        · right
          have hlt : b.toNat < a.toNat := by omega
          simp [strLeAux, beq_eq_false_iff_ne.mpr (Ne.symm hab), charLtB, Nat.blt_eq, hlt]

theorem strLeAux_trans : ∀ (x y z : List Char),
    strLeAux x y = true → strLeAux y z = true → strLeAux x z = true := by
  intro x
  induction x with
  | nil => intro y z _ _; rfl
  | cons a s ih =>
    intro y z h1 h2
    cases y with
    | nil => exact absurd h1 (by simp [strLeAux])
    | cons b t =>
      cases z with
      | nil => exact absurd h2 (by simp [strLeAux])
      | cons c u =>
        by_cases hab : a = b <;> by_cases hbc : b = c
        · subst hab
          subst hbc
          simp only [strLeAux, beq_self_eq_true, if_true] at h1 h2 ⊢
          exact ih t u h1 h2
        · subst hab
          simp only [strLeAux, beq_self_eq_true, if_true,
            beq_eq_false_iff_ne.mpr hbc, if_false] at h2
          simp only [strLeAux, beq_eq_false_iff_ne.mpr hbc, if_false]
          exact h2
        · subst hbc
          simp only [strLeAux, beq_eq_false_iff_ne.mpr hab, if_false] at h1
          simp only [strLeAux, beq_eq_false_iff_ne.mpr hab, if_false]
          exact h1
        · simp only [strLeAux, beq_eq_false_iff_ne.mpr hab, if_false] at h1
          simp only [strLeAux, beq_eq_false_iff_ne.mpr hbc, if_false] at h2
          have hac : charLtB a c = true := charLtB_trans h1 h2
          have hane : a ≠ c := by
            intro he
            rw [he] at h1
            have hcc := charLtB_trans h1 h2
            unfold charLtB at hcc
            rw [Nat.blt_eq] at hcc
            exact absurd hcc (lt_irrefl _)
          simp [strLeAux, beq_eq_false_iff_ne.mpr hane, hac]

theorem strLe_trans {x y z : String} (h1 : strLe x y = true) (h2 : strLe y z = true) :
    strLe x z = true :=
  strLeAux_trans x.data y.data z.data h1 h2

instance : IsTotal String (fun a b => strLe a b = true) :=
  ⟨fun a b => strLeAux_total a.data b.data⟩

instance : IsTrans String (fun a b => strLe a b = true) :=
  ⟨fun _ _ _ h1 h2 => strLe_trans h1 h2⟩

theorem idxmaxAux_mem {α : Type} (f : α → ℚ) : ∀ (t : List α) (best : α),
    idxmaxAux f best t ∈ best :: t := by
  intro t
  induction t with
  | nil => intro best; simp [idxmaxAux]
  | cons x u ih =>
    intro best
    simp only [idxmaxAux]
    by_cases h : f best < f x
    · rw [if_pos h]
      exact List.mem_cons_of_mem _ (ih x)
    · rw [if_neg h]
      rcases List.mem_cons.mp (ih best) with h2 | h2
      · rw [h2]
        exact List.mem_cons_self _ _
      · exact List.mem_cons_of_mem _ (List.mem_cons_of_mem _ h2)

theorem idxmaxAux_ge {α : Type} (f : α → ℚ) : ∀ (t : List α) (best : α) (x : α),
    x ∈ best :: t → f x ≤ f (idxmaxAux f best t) := by
  intro t
  induction t with
  | nil =>
    intro best x hx
    rcases List.mem_cons.mp hx with rfl | h
    · simp [idxmaxAux]
    · exact absurd h (List.not_mem_nil x)
  | cons y u ih =>
    intro best x hx
    simp only [idxmaxAux]
    by_cases hb : f best < f y
    · rw [if_pos hb]
      rcases List.mem_cons.mp hx with rfl | hx2
      · exact le_trans (le_of_lt hb) (ih y y (List.mem_cons_self _ _))
      · exact ih y x hx2
    · rw [if_neg hb]
      rcases List.mem_cons.mp hx with rfl | hx2
      · exact ih x x (List.mem_cons_self _ _)
      · rcases List.mem_cons.mp hx2 with rfl | hx3
        · exact le_trans (not_lt.mp hb) (ih best best (List.mem_cons_self _ _))
        · exact ih best x (List.mem_cons_of_mem _ hx3)

theorem idxmaxAux_tieMin (f : String → ℚ) : ∀ (t : List String) (best : String),
    List.Sorted (fun a b => strLe a b = true) (best :: t) →
    ∀ x ∈ best :: t, f x = f (idxmaxAux f best t) → strLe (idxmaxAux f best t) x = true := by
  intro t
  induction t with
  | nil =>
    intro best _ x hx _
    rcases List.mem_cons.mp hx with rfl | h
    · simp [idxmaxAux, strLe_refl]
    · exact absurd h (List.not_mem_nil x)
  | cons y u ih =>
    intro best hs x hx heq
    have hs1 := List.sorted_cons.mp hs
    by_cases hb : f best < f y
    · have hred : idxmaxAux f best (y :: u) = idxmaxAux f y u := by
        simp [idxmaxAux, hb]
      rw [hred] at heq ⊢
      rcases List.mem_cons.mp hx with rfl | hx2
      · exfalso
        have h1 := idxmaxAux_ge f u y y (List.mem_cons_self _ _)
        rw [← heq] at h1
        exact absurd (lt_of_lt_of_le hb h1) (lt_irrefl _)
      · exact ih y hs1.2 x hx2 heq
    · have hred : idxmaxAux f best (y :: u) = idxmaxAux f best u := by
        simp [idxmaxAux, hb]
      rw [hred] at heq ⊢
      have hsbu : List.Sorted (fun a b => strLe a b = true) (best :: u) := by
        rw [List.sorted_cons]
        exact ⟨fun b hb2 => hs1.1 b (List.mem_cons_of_mem _ hb2),
          (List.sorted_cons.mp hs1.2).2⟩
      rcases List.mem_cons.mp hx with rfl | hx2
      · exact ih x hsbu x (List.mem_cons_self _ _) heq
      · rcases List.mem_cons.mp hx2 with rfl | hx3
        · have hyb : f x ≤ f best := not_lt.mp hb
          have hbr : f best ≤ f (idxmaxAux f best u) :=
            idxmaxAux_ge f u best best (List.mem_cons_self _ _)
          have hbe : f best = f (idxmaxAux f best u) :=
            le_antisymm hbr (by rw [← heq]; exact hyb)
          have hrb := ih best hsbu best (List.mem_cons_self _ _) hbe
          exact strLe_trans hrb (hs1.1 x (List.mem_cons_self _ _))
        · exact ih best hsbu x (List.mem_cons_of_mem _ hx3) heq

/-- C8 (amended): the partner reported as `Top_Partner` attains the
maximal total (debit + credit) volume, and among the partners tied at
that maximum it is the lexicographically smallest name — pandas'
`groupby` sorts the group keys and `idxmax` then takes the first
maximum in that sorted order, not the first-encountered partner in
transaction insertion order. -/
theorem c8_amended (rows : List PRow)
    (hne : rows.filter (fun r => r.partner_name.isSome) ≠ []) :
    ∃ st, create_partner_statistics_summary rows = some st
      ∧ st.Top_Partner
          ∈ uniqueFirst ((rows.filter (fun r => r.partner_name.isSome)).filterMap
              (fun r => r.partner_name))
      ∧ List.Forall (fun p =>
          partnerVolume (rows.filter (fun r => r.partner_name.isSome)) p
            ≤ partnerVolume (rows.filter (fun r => r.partner_name.isSome)) st.Top_Partner
          ∧ (partnerVolume (rows.filter (fun r => r.partner_name.isSome)) p
              = partnerVolume (rows.filter (fun r => r.partner_name.isSome)) st.Top_Partner →
             strLe st.Top_Partner p = true))
          (uniqueFirst ((rows.filter (fun r => r.partner_name.isSome)).filterMap
            (fun r => r.partner_name))) := by
  set pt := rows.filter (fun r => r.partner_name.isSome) with hpt
  set P := uniqueFirst (pt.filterMap (fun r => r.partner_name)) with hP
  have hkeys_perm : (sortedPartners pt).Perm P := by
    rw [hP]
    exact List.perm_insertionSort _ _
  have hkeys_sorted : List.Sorted (fun a b => strLe a b = true) (sortedPartners pt) :=
    List.sorted_insertionSort _ _
  have hPne : P ≠ [] := by
    intro hPnil
    rcases List.exists_cons_of_ne_nil hne with ⟨r, rest, hq⟩
    have hrmem : r ∈ pt := by rw [hq]; exact List.mem_cons_self _ _
    have hsome := (List.mem_filter.mp (hpt ▸ hrmem)).2
    rcases Option.isSome_iff_exists.mp hsome with ⟨p, hp⟩
    have hpP : p ∈ P := by
      rw [hP, mem_uniqueFirst]
      exact List.mem_filterMap.mpr ⟨r, hrmem, hp⟩
    rw [hPnil] at hpP
    exact List.not_mem_nil p hpP
  have hkeysne : sortedPartners pt ≠ [] := by
    intro h0
    exact hPne ((h0 ▸ hkeys_perm.symm).eq_nil)
  rcases hk : sortedPartners pt with - | ⟨k0, krest⟩
  · exact absurd hk hkeysne
  · have htop : idxmaxAux (partnerVolume pt) k0 krest ∈ sortedPartners pt := by
      rw [hk]; exact idxmaxAux_mem _ _ _
    refine ⟨{ No_of_Credit := (pt.filter (fun r => 0 < r.credit)).length
              No_of_Debit := (pt.filter (fun r => 0 < r.debit)).length
              Total_Credit_Amount := (pt.map (fun r => r.credit)).sum
              Total_Debit_Amount := (pt.map (fun r => r.debit)).sum
              Total_Partners := P.length
              Top_Partner := idxmaxAux (partnerVolume pt) k0 krest
              Top_Partner_Amount :=
                partnerVolume pt (idxmaxAux (partnerVolume pt) k0 krest) },
           ?_, ?_, ?_⟩
    · simp only [create_partner_statistics_summary]
      rw [← hpt]
      rw [if_neg (show ¬ pt.isEmpty = true by
        simpa [List.isEmpty_iff] using hne)]
      rw [hk]
      simp only [firstMaxBy]
    · exact hkeys_perm.mem_iff.mp htop
    · rw [List.forall_iff_forall_mem]
      intro p hp
      have hp' : p ∈ k0 :: krest := by
        rw [← hk]; exact hkeys_perm.mem_iff.mpr hp
      refine ⟨idxmaxAux_ge _ _ _ _ hp', ?_⟩
      intro heq
      exact idxmaxAux_tieMin _ krest k0 (hk ▸ hkeys_sorted) p hp' heq

/-- C8 (counterexample): on two tied partners whose first-encountered
(insertion) order is `"ZZ"` then `"AA"`, the code reports `"AA"` — the
lexicographically smallest of the tied group keys, because `groupby`
sorted the keys before `idxmax` took the first maximum — not the
first-encountered `"ZZ"` the claim promises. -/
theorem c8_counterexample :
    uniqueFirst (([⟨some "ZZ", 0, 5⟩, ⟨some "AA", 5, 0⟩] : List PRow).filterMap
        (fun r => r.partner_name)) = ["ZZ", "AA"]
    ∧ partnerVolume [⟨some "ZZ", 0, 5⟩, ⟨some "AA", 5, 0⟩] "ZZ"
        = partnerVolume [⟨some "ZZ", 0, 5⟩, ⟨some "AA", 5, 0⟩] "AA"
    ∧ (create_partner_statistics_summary
        [⟨some "ZZ", 0, 5⟩, ⟨some "AA", 5, 0⟩]).map (fun st => st.Top_Partner)
        = some "AA"
    ∧ "AA" ≠ "ZZ" := by
  have hZZ : partnerVolume [⟨some "ZZ", 0, 5⟩, ⟨some "AA", 5, 0⟩] "ZZ" = 5 := by
    simp [partnerVolume]
  have hAA : partnerVolume [⟨some "ZZ", 0, 5⟩, ⟨some "AA", 5, 0⟩] "AA" = 5 := by
    simp [partnerVolume]
  refine ⟨by decide, by rw [hZZ, hAA], ?_, by decide⟩
  have hflt : (([⟨some "ZZ", 0, 5⟩, ⟨some "AA", 5, 0⟩] : List PRow).filter
      (fun r => r.partner_name.isSome)) = [⟨some "ZZ", 0, 5⟩, ⟨some "AA", 5, 0⟩] := by
    decide
  have hsp : sortedPartners [⟨some "ZZ", 0, 5⟩, ⟨some "AA", 5, 0⟩] = ["AA", "ZZ"] := by
    decide
  simp only [create_partner_statistics_summary, hflt]
  rw [if_neg (by decide)]
  rw [hsp]
  simp only [firstMaxBy, idxmaxAux]
  rw [if_neg (by rw [hZZ, hAA]; exact lt_irrefl _)]
  rfl

/-- Witness for `c8_amended` at the one-row table `[⟨some "B", 1, 0⟩]`:
the attributed-row filter is nonempty and the amended conclusion holds. -/
theorem c8_amended_witness :
    (([⟨some "B", 1, 0⟩] : List PRow).filter (fun r => r.partner_name.isSome) ≠ [])
    ∧ ∃ st, create_partner_statistics_summary [⟨some "B", 1, 0⟩] = some st
      ∧ st.Top_Partner
          ∈ uniqueFirst ((([⟨some "B", 1, 0⟩] : List PRow).filter
              (fun r => r.partner_name.isSome)).filterMap (fun r => r.partner_name))
      ∧ List.Forall (fun p =>
          partnerVolume (([⟨some "B", 1, 0⟩] : List PRow).filter
              (fun r => r.partner_name.isSome)) p
            ≤ partnerVolume (([⟨some "B", 1, 0⟩] : List PRow).filter
              (fun r => r.partner_name.isSome)) st.Top_Partner
          ∧ (partnerVolume (([⟨some "B", 1, 0⟩] : List PRow).filter
              (fun r => r.partner_name.isSome)) p
              = partnerVolume (([⟨some "B", 1, 0⟩] : List PRow).filter
                (fun r => r.partner_name.isSome)) st.Top_Partner →
             strLe st.Top_Partner p = true))
          (uniqueFirst ((([⟨some "B", 1, 0⟩] : List PRow).filter
            (fun r => r.partner_name.isSome)).filterMap (fun r => r.partner_name))) :=
  ⟨by decide, c8_amended [⟨some "B", 1, 0⟩] (by decide)⟩
